import Mathlib

/-! # Route registration generator of goctl

A shallow embedding of `tools/goctl/api/gogen/genroutes.go` and the properties
of its stages: `getRoutes`, `genRouteImports`, `genRoutes`, the built-in
template and the method table.

Go strings are byte sequences and are embedded as lists of byte values.  A Go
run-time failure (a slice bound out of range) is embedded as `none`; the file
system is a state passed through `genRoutes`.  Parts of the repository that the
file only calls (annotation lookup, the handler-name helper, the package
constants, the string set, the naming formatter, `genFile`) are parameters or
are modelled from the specification, each marked as such.
-/

namespace Gogen

/-! ## Go strings and the standard-library calls used by the file -/

/-- A Go string: an immutable sequence of bytes. -/
abbrev GoString := List Nat

/-- The bytes of a string literal of the source (its UTF-8 encoding). -/
def str (s : String) : GoString :=
  (s.toList.flatMap String.utf8EncodeChar).map UInt8.toNat

/-- Go slice expression `s[:n]`; the run-time bound check fails with `none`. -/
def sliceTo (s : GoString) (n : Nat) : Option GoString :=
  if n ≤ s.length then some (s.take n) else none

/-- Go slice expression `s[n:]`; the run-time bound check fails with `none`. -/
def sliceFrom (s : GoString) (n : Nat) : Option GoString :=
  if n ≤ s.length then some (s.drop n) else none

/-- Upper-casing of one ASCII byte: `a`..`z` move down by 32. -/
def upperASCII (b : Nat) : Nat :=
  if 97 ≤ b ∧ b ≤ 122 then b - 32 else b

/-- Go `strings.ToUpper` on the strings `getRoutes` passes to it, which have one
byte: an ASCII byte is upper-cased, a byte from 0x80 up is not valid UTF-8 on
its own and is written back as the replacement character U+FFFD.  (The
definition is also exact on every all-ASCII string.) -/
def stringsToUpper (s : GoString) : GoString :=
  s.flatMap fun b => if b < 128 then [upperASCII b] else [0xEF, 0xBF, 0xBD]

/-- Scan of `strings.ReplaceAll`: `skip` counts the bytes of a match that are
still to be passed over. -/
def replaceScan (old new : GoString) : Nat → GoString → GoString
  | _, [] => []
  | skip + 1, _ :: cs => replaceScan old new skip cs
  | 0, c :: cs =>
    if old ≠ [] ∧ old.isPrefixOf (c :: cs) = true then
      new ++ replaceScan old new (old.length - 1) cs
    else c :: replaceScan old new 0 cs

/-- Go `strings.ReplaceAll(s, old, new)` for a non-empty `old`: the
non-overlapping occurrences of `old`, leftmost first, are replaced by `new`. -/
def stringsReplaceAll (s old new : GoString) : GoString :=
  replaceScan old new 0 s

/-- Scan of `strings.Split`: `cur` holds the bytes of the piece being read, in
reverse, `skip` the bytes of a separator still to be passed over. -/
def splitScan (sep : GoString) : Nat → GoString → GoString → List GoString
  | _, cur, [] => [cur.reverse]
  | skip + 1, cur, _ :: cs => splitScan sep skip cur cs
  | 0, cur, c :: cs =>
    if sep ≠ [] ∧ sep.isPrefixOf (c :: cs) = true then
      cur.reverse :: splitScan sep (sep.length - 1) [] cs
    else splitScan sep 0 (c :: cur) cs

/-- Go `strings.Split(s, sep)` for a non-empty `sep`: the pieces of `s` between
the occurrences of `sep`, in order; one more piece than occurrences. -/
def stringsSplit (s sep : GoString) : List GoString :=
  splitScan sep 0 [] s

/-- Go `strings.Join(elems, sep)`. -/
def stringsJoin : List GoString → GoString → GoString
  | [], _ => []
  | [a], _ => a
  | a :: b :: rest, sep => a ++ sep ++ stringsJoin (b :: rest) sep

/-- Go string comparison `a < b`: lexicographic on bytes. -/
def stringLess : GoString → GoString → Bool
  | _, [] => false
  | [], _ :: _ => true
  | a :: as, b :: bs => decide (a < b) || (decide (a = b) && stringLess as bs)

/-- Insertion of `x` into an ascending list, before the first entry that is
greater than `x`. -/
def insertSorted (x : GoString) : List GoString → List GoString
  | [] => [x]
  | y :: ys => if stringLess y x then y :: insertSorted x ys else x :: y :: ys

/-- Go `sort.Strings`: the strings in ascending order.  (Equal strings are
indistinguishable, so every sorting algorithm gives this same list.) -/
def sortStrings : List GoString → List GoString
  | [] => []
  | x :: xs => insertSorted x (sortStrings xs)

/-! ## The API description consumed by the generator -/

/-- The annotation mapping of a group or a route: keys with their values. -/
abbrev Annotations := List (GoString × GoString)

/-- Modelled from the spec: the `GetAnnotation` methods of `spec.Route` and
`spec.Group` (package `api/spec`, not in this file) return the value of the
named annotation, or the empty string if it is absent. -/
def getAnnotation (anns : Annotations) (key : GoString) : GoString :=
  match anns.find? (fun kv => kv.1 = key) with
  | some kv => kv.2
  | none => []

/-- Modelled from the spec: `spec.Route`, with an HTTP method token, a URL path,
a handler name and its own annotation mapping. -/
structure Route where
  Method : GoString
  Path : GoString
  Handler : GoString
  Annotations : Annotations
deriving DecidableEq, Repr

/-- Modelled from the spec: `spec.Group`, an ordered sequence of routes plus an
annotation mapping. -/
structure Group where
  Annotations : Annotations
  Routes : List Route
deriving DecidableEq, Repr

/-- Modelled from the spec: `spec.Service`, an ordered sequence of groups. -/
structure Service where
  Groups : List Group
deriving DecidableEq, Repr

/-- Modelled from the spec: `spec.ApiSpec`, of which the generator reads the
service. -/
structure ApiSpec where
  Service : Service
deriving DecidableEq, Repr

/-- Modelled from the spec: the method `GetAnnotation` of `spec.Route`, a lookup
in the route's own annotation mapping. -/
def Route.GetAnnotation (r : Route) (key : GoString) : GoString :=
  getAnnotation r.Annotations key

/-- Modelled from the spec: the method `GetAnnotation` of `spec.Group`, a lookup
in the group's annotation mapping. -/
def Group.GetAnnotation (g : Group) (key : GoString) : GoString :=
  getAnnotation g.Annotations key

/-- What `genroutes.go` takes from the rest of package `gogen` and from package
`vars`: the annotation key of the grouping folder, the two directory names, the
project URL, and the helper `getHandlerName`.  None of them is defined in the
file, so they are parameters. -/
structure Env where
  groupProperty : GoString
  contextDir : GoString
  handlerDir : GoString
  ProjectOpenSourceURL : GoString
  getHandlerName : Route → GoString

/-- Modelled from the spec: `util.JoinPackages` joins the package path segments
with a slash. -/
def JoinPackages (pkgs : List GoString) : GoString :=
  stringsJoin pkgs (str "/")

/-! ## The generator's records -/

/-- The record `route` of the file. -/
structure route where
  Method : GoString
  Path : GoString
  Handler : GoString
deriving DecidableEq, Repr

/-- The record `group` of the file. -/
structure group where
  Routes : List route
  JwtEnabled : Bool
  SignatureEnabled : Bool
  AuthName : GoString
  Middlewares : List GoString
deriving DecidableEq, Repr

/-- The zero value of `group`, which `var groupedRoutes group` declares. -/
def group.zero : group :=
  { Routes := [], JwtEnabled := false, SignatureEnabled := false, AuthName := [], Middlewares := [] }

/-- An error value of Go. -/
abbrev GoError := GoString

/-! ## `toPrefix` and `getRoutes` -/

/-- Source function `toPrefix`. -/
def toPrefix (folder : GoString) : GoString :=
  stringsReplaceAll folder (str "/") (str "")

/-- The expression
`toPrefix(folder) + "." + strings.ToUpper(handler[:1]) + handler[1:]`,
which fails when a slice bound is out of range. -/
def qualifiedHandler (folder handler : GoString) : Option GoString :=
  match sliceTo handler 1, sliceFrom handler 1 with
  | some first, some rest => some (toPrefix folder ++ str "." ++ stringsToUpper first ++ rest)
  | _, _ => none

/-- The handler computed in the body of the inner loop of `getRoutes`. -/
def routeHandler (E : Env) (g : Group) (r : Route) : Option GoString :=
  let handler := E.getHandlerName r
  let folder := Route.GetAnnotation r E.groupProperty
  if folder.length > 0 then
    qualifiedHandler folder handler
  else
    let folder := Group.GetAnnotation g E.groupProperty
    if folder.length > 0 then
      qualifiedHandler folder handler
    else
      some handler

/-- The inner loop of `getRoutes` over the routes of `g`; `acc` is
`groupedRoutes.Routes` so far. -/
def routesLoop (E : Env) (g : Group) : List Route → List route → Option (List route)
  | [], acc => some acc
  | r :: rs, acc =>
    match routeHandler E g r with
    | none => none
    | some handler =>
      routesLoop E g rs (acc ++ [{ Method := r.Method, Path := r.Path, Handler := handler }])

/-- The statements of the outer loop body of `getRoutes` after the inner loop:
the `jwt`, `signature` and `middleware` annotations of the group. -/
def groupOptions (g : Group) (groupedRoutes : group) : group :=
  let jwt := Group.GetAnnotation g (str "jwt")
  let groupedRoutes :=
    if jwt.length > 0 then { groupedRoutes with AuthName := jwt, JwtEnabled := true }
    else groupedRoutes
  let signature := Group.GetAnnotation g (str "signature")
  let groupedRoutes :=
    if signature = str "true" then { groupedRoutes with SignatureEnabled := true }
    else groupedRoutes
  let middleware := Group.GetAnnotation g (str "middleware")
  if middleware.length > 0 then
    (stringsSplit middleware (str ",")).foldl
      (fun gr item => { gr with Middlewares := gr.Middlewares ++ [item] }) groupedRoutes
  else groupedRoutes

/-- The outer loop of `getRoutes`; `routes` is the slice built so far. -/
def groupsLoop (E : Env) : List Group → List group → Option (List group)
  | [], routes => some routes
  | g :: gs, routes =>
    match routesLoop E g g.Routes group.zero.Routes with
    | none => none
    | some rs => groupsLoop E gs (routes ++ [groupOptions g { group.zero with Routes := rs }])

/-- Source function `getRoutes`: the pair of the group list and the error, or
`none` when the run stops on a run-time failure. -/
def getRoutes (E : Env) (api : ApiSpec) : Option (List group × Option GoError) :=
  match groupsLoop E api.Service.Groups [] with
  | none => none
  | some routes => some (routes, none)

/-! ## `genRouteImports` -/

/-- Modelled from the spec: `collection.Set` (package `core/collection`, not in
this file) holds each inserted string once, keyed by its literal text.  The set
is embedded as the list of its keys without repetition. -/
abbrev StrSet := List GoString

/-- Modelled from the spec: `collection.NewSet`, the empty set. -/
def NewSet : StrSet := []

/-- Modelled from the spec: `Set.AddStr`; a key already present is not added
again. -/
def AddStr (set : StrSet) (key : GoString) : StrSet :=
  if key ∈ set then set else set ++ [key]

/-- Modelled from the spec: the order in which `Set.KeysStr` hands out the keys
is the container's own and must not be relied on; it is some rearrangement of
the keys. -/
structure KeyOrder where
  keys : List GoString → List GoString
  perm : ∀ l, (keys l).Perm l

/-- Modelled from the spec: `Set.KeysStr`, all keys of the set in the
container's order. -/
def KeysStr (K : KeyOrder) (set : StrSet) : List GoString :=
  K.keys set

/-- The key order that hands the keys out as they were inserted. -/
def KeyOrder.insertion : KeyOrder :=
  { keys := fun l => l, perm := fun l => List.Perm.refl l }

/-- The key order that hands the keys out last inserted first. -/
def KeyOrder.reversed : KeyOrder :=
  { keys := List.reverse, perm := fun l => List.reverse_perm l }

/-- The context-package import line,
`fmt.Sprintf("\"%s\"", util.JoinPackages(parentPkg, contextDir))`. -/
def contextImport (E : Env) (parentPkg : GoString) : GoString :=
  str "\"" ++ JoinPackages [parentPkg, E.contextDir] ++ str "\""

/-- The import line of a handler folder,
`fmt.Sprintf("%s \"%s\"", toPrefix(folder), util.JoinPackages(parentPkg, handlerDir, folder))`. -/
def handlerImport (E : Env) (parentPkg folder : GoString) : GoString :=
  toPrefix folder ++ str " \"" ++ JoinPackages [parentPkg, E.handlerDir, folder] ++ str "\""

/-- The body of the inner loop of `genRouteImports` for one route. -/
def importStep (E : Env) (parentPkg : GoString) (g : Group) (importSet : StrSet)
    (route : Route) : StrSet :=
  let folder := Route.GetAnnotation route E.groupProperty
  if folder.length = 0 then
    let folder := Group.GetAnnotation g E.groupProperty
    if folder.length = 0 then
      importSet
    else
      AddStr importSet (handlerImport E parentPkg folder)
  else
    AddStr importSet (handlerImport E parentPkg folder)

/-- The set `importSet` of `genRouteImports` when both loops are done. -/
def importSet (E : Env) (parentPkg : GoString) (api : ApiSpec) : StrSet :=
  api.Service.Groups.foldl
    (fun set g => g.Routes.foldl (importStep E parentPkg g) set)
    (AddStr NewSet (contextImport E parentPkg))

/-- The slice `imports` of `genRouteImports` after `sort.Strings`. -/
def sortedImports (K : KeyOrder) (E : Env) (parentPkg : GoString) (api : ApiSpec) :
    List GoString :=
  sortStrings (KeysStr K (importSet E parentPkg api))

/-- The dependency section, `fmt.Sprintf("\"%s/rest\"", vars.ProjectOpenSourceURL)`. -/
def depSection (E : Env) : GoString :=
  str "\"" ++ E.ProjectOpenSourceURL ++ str "/rest\""

/-- Source function `genRouteImports`. -/
def genRouteImports (K : KeyOrder) (E : Env) (parentPkg : GoString) (api : ApiSpec) :
    GoString :=
  let imports := sortedImports K E parentPkg api
  let projectSection := stringsJoin imports (str "\n\t")
  projectSection ++ str "\n\n\t" ++ depSection E

/-! ## Notions used to state the properties -/

/-- The resolved grouping folder of a route: its own annotation if that is
non-empty, otherwise the annotation of its group. -/
def resolvedFolder (E : Env) (g : Group) (r : Route) : GoString :=
  if Route.GetAnnotation r E.groupProperty ≠ [] then Route.GetAnnotation r E.groupProperty
  else Group.GetAnnotation g E.groupProperty

/-- The non-empty resolved folders of the routes of a service, one entry per
route, in traversal order. -/
def resolvedFolders (E : Env) (api : ApiSpec) : List GoString :=
  api.Service.Groups.flatMap fun g =>
    (g.Routes.map (resolvedFolder E g)).filter fun f => decide (f ≠ [])

/-- Every route that resolves to a folder has a non-empty handler name: the
names `getRoutes` slices can all be sliced.  It holds in particular when every
handler name is non-empty. -/
def Sliceable (E : Env) (api : ApiSpec) : Prop :=
  ∀ g ∈ api.Service.Groups, ∀ r ∈ g.Routes,
    resolvedFolder E g r ≠ [] → E.getHandlerName r ≠ []

instance (E : Env) (api : ApiSpec) : Decidable (Sliceable E api) :=
  inferInstanceAs (Decidable (∀ g ∈ api.Service.Groups, ∀ r ∈ g.Routes,
    resolvedFolder E g r ≠ [] → E.getHandlerName r ≠ []))

/-- The output record `o` is the one the inner loop of `getRoutes` appends for
the route `r` of the group `g`. -/
def RouteOut (E : Env) (g : Group) (r : Route) (o : route) : Prop :=
  routeHandler E g r = some o.Handler ∧ o.Method = r.Method ∧ o.Path = r.Path

/-- The output record `o` is the one the outer loop of `getRoutes` appends for
the group `g`. -/
def GroupOut (E : Env) (g : Group) (o : group) : Prop :=
  ∃ rs, List.Forall₂ (RouteOut E g) g.Routes rs ∧
    o = groupOptions g { group.zero with Routes := rs }

/-- The service of `b` is the service of `a` with its groups permuted and the
routes inside each group permuted. -/
def Rearranged (a b : ApiSpec) : Prop :=
  ∃ mid : List Group,
    List.Forall₂ (fun g g' => g'.Annotations = g.Annotations ∧ g'.Routes.Perm g.Routes)
      a.Service.Groups mid ∧
    mid.Perm b.Service.Groups

/-- The annotation keys that `getRoutes` reads on the group: `jwt`, `signature`
and `middleware`. -/
def authKeys : List GoString := [str "jwt", str "signature", str "middleware"]

/-- Two routes that are identical except for the values of their own `jwt`,
`signature` and `middleware` annotations. -/
def SameButRouteAuth (r r' : Route) : Prop :=
  r.Method = r'.Method ∧ r.Path = r'.Path ∧ r.Handler = r'.Handler ∧
    ∀ key, key ∉ authKeys → Route.GetAnnotation r key = Route.GetAnnotation r' key

/-- Two descriptions that are identical except for the values of the `jwt`,
`signature` and `middleware` annotations on their routes. -/
def SameButRouteAuthApi (a b : ApiSpec) : Prop :=
  List.Forall₂
    (fun g g' => g.Annotations = g'.Annotations ∧
      List.Forall₂ SameButRouteAuth g.Routes g'.Routes)
    a.Service.Groups b.Service.Groups

/-! ## Sample descriptions -/

/-- An environment for the examples: the grouping folder is the annotation
`group`, and the handler-name helper returns the name as the description has
it. -/
def Env.sample : Env :=
  { groupProperty := str "group"
    contextDir := str "svc"
    handlerDir := str "handler"
    ProjectOpenSourceURL := str "github.com/tal-tech/go-zero"
    getHandlerName := fun r => r.Handler }

/-- A `get` route with the given handler name and, unless it is empty, the given
grouping folder as its own annotation. -/
def mkRoute (handler folder : String) : Route :=
  { Method := str "get", Path := str "/" ++ str handler, Handler := str handler,
    Annotations := if folder = "" then [] else [(str "group", str folder)] }

/-- Route `getUser` with its own folder `user`. -/
def sampleRoute : Route := mkRoute "getUser" "user"

/-- A group with folder `b` that holds `sampleRoute`. -/
def sampleGroup : Group :=
  { Annotations := [(str "group", str "b")], Routes := [sampleRoute] }

/-- The description with `sampleGroup` alone. -/
def sampleApi : ApiSpec := ⟨⟨[sampleGroup]⟩⟩

/-- Route `login` without annotations. -/
def bareRoute : Route :=
  { Method := str "post", Path := str "/login", Handler := str "login", Annotations := [] }

/-- A group without a folder that holds `bareRoute`. -/
def bareGroup : Group :=
  { Annotations := [(str "jwt", str "Auth")], Routes := [bareRoute] }

/-- The description with `bareGroup` alone. -/
def bareApi : ApiSpec := ⟨⟨[bareGroup]⟩⟩

/-- Two groups, of two routes and of one route. -/
def orderApi : ApiSpec :=
  ⟨⟨[{ Annotations := [(str "group", str "user")],
       Routes := [{ Method := str "get", Path := str "/a", Handler := str "a", Annotations := [] },
                  { Method := str "post", Path := str "/b", Handler := str "b", Annotations := [] }] },
     { Annotations := [],
       Routes := [{ Method := str "put", Path := str "/c", Handler := str "c", Annotations := [] }] }]⟩⟩

/-- A group with all three group-level options set. -/
def authGroup : Group :=
  { Annotations := [(str "jwt", str "Auth"), (str "signature", str "true"),
      (str "middleware", str "auth, log")],
    Routes := [{ Method := str "get", Path := str "/orders", Handler := str "list",
                 Annotations := [] }] }

/-- The description with `authGroup` alone. -/
def authApi : ApiSpec := ⟨⟨[authGroup]⟩⟩

/-- A group whose signature annotation is the capitalised `True`. -/
def capitalGroup : Group :=
  { Annotations := [(str "signature", str "True")], Routes := [bareRoute] }

/-- The description with `capitalGroup` alone. -/
def capitalApi : ApiSpec := ⟨⟨[capitalGroup]⟩⟩

/-- Folder `orders` is met in two groups, once on the group and once on a route;
folder `zeta` is met before folder `alpha`. -/
def zetaAlphaApi : ApiSpec :=
  ⟨⟨[{ Annotations := [], Routes := [mkRoute "a" "zeta", mkRoute "b" "orders", mkRoute "c" "alpha"] },
     { Annotations := [(str "group", str "orders")],
       Routes := [mkRoute "d" "", mkRoute "e" "orders"] }]⟩⟩

/-- The groups of `zetaAlphaApi` swapped, each with its routes reversed. -/
def alphaZetaGroups : List Group :=
  [{ Annotations := [(str "group", str "orders")],
     Routes := [mkRoute "e" "orders", mkRoute "d" ""] },
   { Annotations := [], Routes := [mkRoute "c" "alpha", mkRoute "b" "orders", mkRoute "a" "zeta"] }]

/-- The description `zetaAlphaApi` with its groups swapped and the routes of
each group reversed. -/
def alphaZetaApi : ApiSpec := ⟨⟨alphaZetaGroups⟩⟩

/-- The route `sampleRoute` with `jwt`, `signature` and `middleware` annotations
of its own added. -/
def taggedRoute : Route :=
  { sampleRoute with Annotations :=
      [(str "jwt", str "Other"), (str "group", str "user"), (str "signature", str "true"),
       (str "middleware", str "x,y")] }

/-- The description `sampleApi` with `taggedRoute` in place of `sampleRoute`. -/
def taggedApi : ApiSpec := ⟨⟨[{ sampleGroup with Routes := [taggedRoute] }]⟩⟩

/-- Route with the empty handler name and no annotation of its own. -/
def emptyNameRoute : Route :=
  { Method := str "get", Path := str "/x", Handler := str "", Annotations := [] }

/-- A group with folder `user` that holds `emptyNameRoute`. -/
def emptyNameGroup : Group :=
  { Annotations := [(str "group", str "user")], Routes := [emptyNameRoute] }

/-- The description with `emptyNameGroup` alone. -/
def emptyNameApi : ApiSpec := ⟨⟨[emptyNameGroup]⟩⟩

/-- One group with a route in folder `a/b` and a route in folder `ab`. -/
def aliasApi : ApiSpec :=
  ⟨⟨[{ Annotations := [], Routes := [mkRoute "x" "a/b", mkRoute "y" "ab"] }]⟩⟩

/-- An environment whose handler-name helper appends `Handler` to the name as
the description has it, so that it never returns the empty string, with the
directories `internal/svc` and `internal/handler`. -/
def Env.suffixing : Env :=
  { groupProperty := str "group"
    contextDir := str "internal/svc"
    handlerDir := str "internal/handler"
    ProjectOpenSourceURL := str "github.com/tal-tech/go-zero"
    getHandlerName := fun r => r.Handler ++ str "Handler" }

/-- The group of `aliasApi`. -/
def aliasGroup : Group :=
  { Annotations := [], Routes := [mkRoute "x" "a/b", mkRoute "y" "ab"] }

/-! ## The constants of the file: file name, template, method table -/

/-- Source constant `routesFilename`. -/
def routesFilename : GoString := str "routes"

/-- Source constant `routesTemplate`, byte for byte. -/
def routesTemplate : GoString :=
  str (
    "// Code generated by goctl. DO NOT EDIT.\n" ++
    "package handler\n" ++
    "\n" ++
    "import (\n" ++
    "\t\"net/http\"\n" ++
    "\n" ++
    "\t\x7b\x7b.importPackages\x7d\x7d\n" ++
    ")\n" ++
    "\n" ++
    "func RegisterHandlers(engine *rest.Server, serverCtx *svc.ServiceContext) \x7b\n" ++
    "\tengine.AddRoutes(\n" ++
    "\t\x7b\x7brange $group :=Groups\x7d\x7d\n" ++
    "\t\t\x7b\x7brange $route := $group.Routes\x7d\x7d\n" ++
    "\t\t[]rest.Route\x7b\n" ++
    "\t\t\t\x7b\n" ++
    "\t\t\t\tMethod: .Method,\n" ++
    "\t\t\t\tPath: .Path,\n" ++
    "\t\t\t\tHandler: .Handler,\n" ++
    "\t\t\t\x7d\n" ++
    "\t\t\x7d\n" ++
    "\t\t\x7b\x7bend\x7d\x7d\n" ++
    "\t\t\x7b\x7bif .JwtEnabled\x7d\x7d\n" ++
    "\t\trest.WithJwt(serverCtx.Config.\x7b\x7bgroup.AuthName\x7d\x7d.AccessSecret),\n" ++
    "\t\t\x7b\x7bend\x7d\x7d\n" ++
    "\t\t\x7b\x7bif .SignatureEnabled \x7d\x7d\n" ++
    "\t\trest.WithSignature(serverCtx.Config.Signature),\n" ++
    "\t\t\x7b\x7bend\x7d\x7d\n" ++
    "\t\x7b\x7bend\x7d\x7d\n" ++
    "\t)\n" ++
    "\x7d\n")

/-- Source variable `mapping`: the entries of the map literal, in the order of
the source. -/
def mapping : List (GoString × GoString) :=
  [(str "delete", str "http.MethodDelete"),
   (str "get", str "http.MethodGet"),
   (str "head", str "http.MethodHead"),
   (str "post", str "http.MethodPost"),
   (str "put", str "http.MethodPut"),
   (str "patch", str "http.MethodPatch")]

/-- Go map index `m[key]` with the presence flag: the value stored under exactly
this key, `none` when the key is absent. -/
def mapIndex (m : List (GoString × GoString)) (key : GoString) : Option GoString :=
  match m.find? (fun kv => kv.1 = key) with
  | some kv => some kv.2
  | none => none

/-! ## Go `text/template`, as far as the built-in template needs it -/

/-- The pieces the template lexer cuts a template into: literal text, the inside
of an action between the delimiters, and an action that is never closed. -/
inductive Item where
  | text (s : GoString)
  | action (s : GoString)
  | unclosed (s : GoString)
deriving DecidableEq, Repr

/-- The literal text collected so far, as an item; empty text gives no item. -/
def textItem (acc : GoString) : List Item :=
  if acc = [] then [] else [Item.text acc.reverse]

/-- The template lexer at the level of delimiters: text runs up to the next
opening delimiter (two bytes 123), an action up to the next closing delimiter
(two bytes 125).  `inAction` tells which of the two is being read and `acc`
holds its bytes in reverse.  Trim markers and comments are not modelled. -/
def lexItems : Bool → GoString → GoString → List Item
  | false, acc, [] => textItem acc
  | true, acc, [] => [Item.unclosed acc.reverse]
  | false, acc, 123 :: 123 :: rest => textItem acc ++ lexItems true [] rest
  | true, acc, 125 :: 125 :: rest => Item.action acc.reverse :: lexItems false [] rest
  | inAction, acc, c :: rest => lexItems inAction (c :: acc) rest

/-- The tokens inside an action: a field `.Name`, a variable `$name`, an
identifier, the declaration sign `:=`, and any other byte. -/
inductive Token where
  | field (name : GoString)
  | variable (name : GoString)
  | ident (name : GoString)
  | declare
  | other (c : Nat)
deriving DecidableEq, Repr

/-- The token being read inside an action, with its bytes in reverse. -/
inductive Pending where
  | nothing
  | field (acc : GoString)
  | variable (acc : GoString)
  | ident (acc : GoString)
deriving DecidableEq, Repr

/-- The token that ends when a byte that cannot continue it is met. -/
def Pending.flush : Pending → List Token
  | Pending.nothing => []
  | Pending.field acc => [Token.field acc.reverse]
  | Pending.variable acc => [Token.variable acc.reverse]
  | Pending.ident acc => [Token.ident acc.reverse]

/-- Letters, digits and the underscore: the bytes of a name. -/
def isAlphaNumeric (c : Nat) : Bool :=
  decide (c = 95) || decide (48 ≤ c ∧ c ≤ 57) || decide (65 ≤ c ∧ c ≤ 90) ||
    decide (97 ≤ c ∧ c ≤ 122)

/-- Blank, tab, carriage return and newline, which separate tokens. -/
def isSpace (c : Nat) : Bool :=
  decide (c = 32) || decide (c = 9) || decide (c = 13) || decide (c = 10)

/-- The lexer inside an action.  A dot starts a field, a dollar sign a variable,
a name byte starts or continues a name, `:=` is the declaration sign, blanks
separate; every other byte is handed on as it is. -/
def lexAction : Pending → GoString → List Token
  | p, [] => p.flush
  | p, 58 :: 61 :: rest => p.flush ++ Token.declare :: lexAction Pending.nothing rest
  | p, c :: rest =>
    if isAlphaNumeric c then
      match p with
      | Pending.nothing => lexAction (Pending.ident [c]) rest
      | Pending.field acc => lexAction (Pending.field (c :: acc)) rest
      | Pending.variable acc => lexAction (Pending.variable (c :: acc)) rest
      | Pending.ident acc => lexAction (Pending.ident (c :: acc)) rest
    else if c = 46 then p.flush ++ lexAction (Pending.field []) rest
    else if c = 36 then p.flush ++ lexAction (Pending.variable []) rest
    else if isSpace c then p.flush ++ lexAction Pending.nothing rest
    else p.flush ++ Token.other c :: lexAction Pending.nothing rest

/-- The ways parsing or executing a template fails.  `unsupported` stands for a
construct outside the modelled part of the template language. -/
inductive TemplateError where
  | unclosedAction
  | functionNotDefined (name : GoString)
  | undefinedVariable (name : GoString)
  | unexpectedEnd
  | unexpectedEOF
  | cantEvaluateField (name : GoString)
  | unsupported
deriving DecidableEq, Repr

/-- The functions every template can call: the predefined global functions of
`text/template`.  The file adds none. -/
def builtinFuncs : List GoString :=
  [str "and", str "call", str "html", str "index", str "slice", str "js", str "len",
   str "not", str "or", str "print", str "printf", str "println", str "urlquery",
   str "eq", str "ge", str "gt", str "le", str "lt", str "ne"]

/-- The words the lexer reads as constants, not as function names. -/
def constantWords : List GoString := [str "true", str "false", str "nil"]

/-- The parser's check of the operands of a pipeline, left to right, with the
variables visible at this point: an identifier must be a defined function and a
variable must be declared.  Constants and other bytes are outside the modelled
part. -/
def checkOperands (vars : List GoString) : List Token → Option TemplateError
  | [] => none
  | Token.ident name :: rest =>
    if name ∈ constantWords ∨ (name.headD 0 ≤ 57 ∧ 48 ≤ name.headD 0) then
      some TemplateError.unsupported
    else if name ∈ builtinFuncs then checkOperands vars rest
    else some (TemplateError.functionNotDefined name)
  | Token.variable name :: rest =>
    if name = [] ∨ name ∈ vars then checkOperands vars rest
    else some (TemplateError.undefinedVariable name)
  | Token.field _ :: rest => checkOperands vars rest
  | Token.declare :: _ => some TemplateError.unsupported
  | Token.other _ :: _ => some TemplateError.unsupported

/-- A pipeline: an optional declaration `$name :=`, then the operands, which may
already use the declared variable.  The result is the error, if there is one,
and the variables the pipeline declares. -/
def checkPipeline (vars : List GoString) : List Token → Option TemplateError × List GoString
  | Token.variable name :: Token.declare :: rest => (checkOperands (name :: vars) rest, [name])
  | toks => (checkOperands vars toks, [])

/-- The parser over the items of a template, in order.  `scopes` holds the
declared variables, innermost block first, the last entry being the template
itself; `none` means the template parses.  A `range`, `if` or `with` opens a
block, `end` closes the innermost one; the other keywords are outside the
modelled part. -/
def parseItems : List (List GoString) → List Item → Option TemplateError
  | scopes, [] => if scopes.length ≤ 1 then none else some TemplateError.unexpectedEOF
  | scopes, Item.text _ :: rest => parseItems scopes rest
  | _, Item.unclosed _ :: _ => some TemplateError.unclosedAction
  | scopes, Item.action s :: rest =>
    match lexAction Pending.nothing s with
    | Token.ident kw :: toks =>
      if kw = str "range" ∨ kw = str "if" ∨ kw = str "with" then
        match checkPipeline scopes.flatten toks with
        | (some e, _) => some e
        | (none, declared) => parseItems (declared :: scopes) rest
      else if kw = str "end" then
        match scopes, toks with
        | _ :: outer :: more, [] => parseItems (outer :: more) rest
        | _ :: _ :: _, _ :: _ => some TemplateError.unsupported
        | _, _ => some TemplateError.unexpectedEnd
      else if kw = str "else" ∨ kw = str "define" ∨ kw = str "template" ∨ kw = str "block"
          ∨ kw = str "break" ∨ kw = str "continue" then
        some TemplateError.unsupported
      else
        match checkOperands scopes.flatten (Token.ident kw :: toks) with
        | some e => some e
        | none => parseItems scopes rest
    | toks =>
      match checkPipeline scopes.flatten toks with
      | (some e, _) => some e
      | (none, declared) => parseItems ((declared ++ scopes.headD []) :: scopes.tail) rest

/-- `Template.Parse` on the template text: the items when the text parses. -/
def parseTemplate (text : GoString) : Except TemplateError (List Item) :=
  match parseItems [[]] (lexItems false [] text) with
  | some e => Except.error e
  | none => Except.ok (lexItems false [] text)

/-- The anonymous struct `data` that `genRoutes` passes to the template. -/
structure routesData where
  ImportPackages : GoString
  Groups : List group
deriving DecidableEq, Repr

/-- The value of a field of `routesData`. -/
inductive FieldValue where
  | string (s : GoString)
  | groups (gs : List group)
deriving DecidableEq, Repr

/-- Evaluation of the field `.name` on a `routesData` value: the field with
exactly this name, and an error for every other name. -/
def evalField (data : routesData) (name : GoString) : Except TemplateError FieldValue :=
  if name = str "ImportPackages" then Except.ok (FieldValue.string data.ImportPackages)
  else if name = str "Groups" then Except.ok (FieldValue.groups data.Groups)
  else Except.error (TemplateError.cantEvaluateField name)

/-- Execution of a parsed template whose actions are single fields of the data;
text is copied, a string field is written as it is. -/
def execItems (data : routesData) : List Item → Except TemplateError GoString
  | [] => Except.ok []
  | Item.text s :: rest =>
    match execItems data rest with
    | Except.ok out => Except.ok (s ++ out)
    | Except.error e => Except.error e
  | Item.unclosed _ :: _ => Except.error TemplateError.unclosedAction
  | Item.action s :: rest =>
    match lexAction Pending.nothing s with
    | [Token.field name] =>
      match evalField data name with
      | Except.ok (FieldValue.string v) =>
        match execItems data rest with
        | Except.ok out => Except.ok (v ++ out)
        | Except.error e => Except.error e
      | Except.ok (FieldValue.groups _) => Except.error TemplateError.unsupported
      | Except.error e => Except.error e
    | _ => Except.error TemplateError.unsupported

/-- Rendering: `Template.Parse` on the text, then `Template.Execute` on the
data.  A text that does not parse renders nothing. -/
def renderTemplate (text : GoString) (data : routesData) : Except TemplateError GoString :=
  match parseTemplate text with
  | Except.error e => Except.error e
  | Except.ok items => execItems data items

/-- The actions of a template, in order. -/
def actionsOf : List Item → List GoString
  | [] => []
  | Item.action s :: rest => s :: actionsOf rest
  | _ :: rest => actionsOf rest

/-! ## `genRoutes` and the file system -/

/-- Modelled from the spec: `config.Config`, of which `genRoutes` reads the
naming format. -/
structure Config where
  NamingFormat : GoString
deriving DecidableEq, Repr

/-- The record `fileGenConfig` with the fields that `genRoutes` sets. -/
structure fileGenConfig where
  dir : GoString
  subdir : GoString
  filename : GoString
  templateName : GoString
  category : GoString
  templateFile : GoString
  builtinTemplate : GoString
  data : routesData
deriving DecidableEq, Repr

/-- What `genRoutes` calls outside the file, over a file system state `FS`: the
naming formatter `format.FileNamingFormat` with its pair of results,
`path.Join`, `os.Remove` (whose error the caller drops), the helper `genFile`
(`none` when it stops on a run-time failure) and the two package constants
`category` and `routesTemplateFile`. -/
structure World (FS : Type) where
  FileNamingFormat : GoString → GoString → GoString × Option GoError
  pathJoin : List GoString → GoString
  osRemove : GoString → FS → FS
  genFile : fileGenConfig → FS → Option (FS × Option GoError)
  category : GoString
  routesTemplateFile : GoString

/-- Source function `genRoutes`, from a file system state to the state it leaves
and the error it returns; `none` when the run stops on a run-time failure. -/
def genRoutes {FS : Type} (W : World FS) (K : KeyOrder) (E : Env) (dir rootPkg : GoString)
    (cfg : Config) (api : ApiSpec) (fs : FS) : Option (FS × Option GoError) :=
  match getRoutes E api with
  | none => none
  | some (_, some err) => some (fs, some err)
  | some (groups, none) =>
    match W.FileNamingFormat cfg.NamingFormat routesFilename with
    | (_, some err) => some (fs, some err)
    | (routeFilename, none) =>
      let routeFilename := routeFilename ++ str ".go"
      let filename := W.pathJoin [dir, E.handlerDir, routeFilename]
      let fs := W.osRemove filename fs
      let data : routesData :=
        { ImportPackages := genRouteImports K E rootPkg api, Groups := groups }
      W.genFile
        { dir := dir
          subdir := E.handlerDir
          filename := routeFilename
          templateName := str "routesTemplate"
          category := W.category
          templateFile := W.routesTemplateFile
          builtinTemplate := routesTemplate
          data := data } fs

/-! ## Sample worlds and templates -/

/-- A file operation, for a file system state that records what was done to
it. -/
inductive FileOp where
  | removed (filename : GoString)
  | written (dir subdir filename : GoString)
deriving DecidableEq, Repr

/-- A world whose file system state is the list of the operations performed;
the naming formatter accepts the format `gozero` alone. -/
def World.recording : World (List FileOp) :=
  { FileNamingFormat := fun format content =>
      if format = str "gozero" then (content, none) else ([], some (str "unknown format"))
    pathJoin := fun elems => stringsJoin elems (str "/")
    osRemove := fun filename fs => fs ++ [FileOp.removed filename]
    genFile := fun c fs => some (fs ++ [FileOp.written c.dir c.subdir c.filename], none)
    category := str "api"
    routesTemplateFile := str "routes.tpl" }

/-- The six method tokens in upper case. -/
def upperTokens : List GoString :=
  [str "DELETE", str "GET", str "HEAD", str "POST", str "PUT", str "PATCH"]

/-- The six method tokens in lower case. -/
def lowerTokens : List GoString :=
  [str "delete", str "get", str "head", str "post", str "put", str "patch"]

/-- The data record for `authApi` with root package `root`. -/
def authData : routesData :=
  { ImportPackages := genRouteImports KeyOrder.insertion Env.sample (str "root") authApi
    Groups := ((getRoutes Env.sample authApi).map fun p => p.1).getD [] }

/-- The import section of the template with the field name capitalised as in the
data record. -/
def importSectionTemplate : GoString :=
  str "import (\n\t\"net/http\"\n\n\t\x7b\x7b.ImportPackages\x7d\x7d\n)\n"

/-! ## Lemmas on the string functions -/

theorem str_slash : str "/" = [47] := by decide

theorem str_comma : str "," = [44] := by decide

theorem replaceScan_byte (b : Nat) (s : GoString) :
    replaceScan [b] [] 0 s = s.filter (fun c => decide (c ≠ b)) := by
  induction s with
  | nil => rfl
  | cons c cs ih =>
    by_cases h : b = c
    · subst h
      simp [replaceScan, List.isPrefixOf, ih]
    · have h' : ¬ c = b := fun e => h e.symm
      simp [replaceScan, List.isPrefixOf, ih, h, h']

theorem toPrefix_eq_filter (folder : GoString) :
    toPrefix folder = folder.filter (fun c => decide (c ≠ 47)) := by
  unfold toPrefix stringsReplaceAll
  rw [str_slash, show str "" = [] from by decide]
  exact replaceScan_byte 47 folder

theorem stringsToUpper_ascii (c : Nat) (h : c < 128) : stringsToUpper [c] = [upperASCII c] := by
  simp [stringsToUpper, h]

theorem splitScan_byte_cons (b : Nat) (cur : GoString) (c : Nat) (cs : GoString) :
    splitScan [b] 0 cur (c :: cs) =
      if c = b then cur.reverse :: splitScan [b] 0 [] cs else splitScan [b] 0 (c :: cur) cs := by
  by_cases h : c = b
  · subst h; simp [splitScan, List.isPrefixOf]
  · have h' : ¬ b = c := fun e => h e.symm
    simp [splitScan, List.isPrefixOf, h, h']

theorem splitScan_byte_ne_nil (b : Nat) (s : GoString) :
    ∀ cur, splitScan [b] 0 cur s ≠ [] := by
  induction s with
  | nil => intro cur; simp [splitScan]
  | cons c cs ih =>
    intro cur
    rw [splitScan_byte_cons]
    split_ifs
    · simp
    · exact ih _

theorem splitScan_byte_length (b : Nat) (s : GoString) :
    ∀ cur, (splitScan [b] 0 cur s).length = s.count b + 1 := by
  induction s with
  | nil => intro cur; simp [splitScan]
  | cons c cs ih =>
    intro cur
    rw [splitScan_byte_cons]
    by_cases h : c = b
    · subst h; simp [ih]
    · simp [h, ih, List.count_cons]

theorem splitScan_byte_not_mem (b : Nat) (s : GoString) :
    ∀ cur, b ∉ cur → ∀ e ∈ splitScan [b] 0 cur s, b ∉ e := by
  induction s with
  | nil =>
    intro cur hcur e he
    simp only [splitScan, List.mem_singleton] at he
    subst he
    simpa using hcur
  | cons c cs ih =>
    intro cur hcur e he
    rw [splitScan_byte_cons] at he
    by_cases h : c = b
    · simp only [h, if_true, List.mem_cons] at he
      rcases he with he | he
      · subst he; simpa using hcur
      · exact ih [] (by simp) e he
    · simp only [h, if_false] at he
      refine ih (c :: cur) ?_ e he
      simp only [List.mem_cons, not_or]
      exact ⟨fun e => h e.symm, hcur⟩

theorem stringsJoin_cons (x : GoString) (l : List GoString) (sep : GoString) (h : l ≠ []) :
    stringsJoin (x :: l) sep = x ++ sep ++ stringsJoin l sep := by
  cases l with
  | nil => exact absurd rfl h
  | cons y ys => rfl

theorem splitScan_byte_join (b : Nat) (s : GoString) :
    ∀ cur, stringsJoin (splitScan [b] 0 cur s) [b] = cur.reverse ++ s := by
  induction s with
  | nil => intro cur; simp [splitScan, stringsJoin]
  | cons c cs ih =>
    intro cur
    rw [splitScan_byte_cons]
    by_cases h : c = b
    · subst h
      simp only [if_true]
      rw [stringsJoin_cons _ _ _ (splitScan_byte_ne_nil _ _ _), ih]
      simp
    · simp only [h, if_false]
      rw [ih]
      simp

/-! ## Lemmas on string order and sorting -/

theorem stringLess_cons (a b : Nat) (as bs : GoString) :
    stringLess (a :: as) (b :: bs) = true ↔ a < b ∨ (a = b ∧ stringLess as bs = true) := by
  simp [stringLess]

theorem stringLess_iff_lex (a b : GoString) :
    stringLess a b = true ↔ List.Lex (· < ·) a b := by
  induction a generalizing b with
  | nil =>
    cases b with
    | nil => simp [stringLess]
    | cons y ys => simp [stringLess, List.Lex.nil]
  | cons x xs ih =>
    cases b with
    | nil => simp [stringLess]
    | cons y ys =>
      rw [stringLess_cons]
      constructor
      · rintro (h | ⟨h, h'⟩)
        · exact List.Lex.rel h
        · subst h
          exact List.Lex.cons ((ih ys).mp h')
      · intro h
        cases h with
        | cons h' => exact Or.inr ⟨rfl, (ih ys).mpr h'⟩
        | rel h' => exact Or.inl h'

theorem stringLess_irrefl (a : GoString) : stringLess a a = false := by
  induction a with
  | nil => rfl
  | cons x xs ih => simp [stringLess, ih]

theorem stringLess_trans (a b c : GoString) (hab : stringLess a b = true)
    (hbc : stringLess b c = true) : stringLess a c = true := by
  induction a generalizing b c with
  | nil =>
    cases c with
    | nil => cases b <;> simp [stringLess] at hbc
    | cons z zs => rfl
  | cons x xs ih =>
    cases b with
    | nil => simp [stringLess] at hab
    | cons y ys =>
      cases c with
      | nil => simp [stringLess] at hbc
      | cons z zs =>
        rw [stringLess_cons] at hab hbc ⊢
        rcases hab with h1 | ⟨h1, h1'⟩ <;> rcases hbc with h2 | ⟨h2, h2'⟩
        · left; omega
        · left; omega
        · left; omega
        · right; exact ⟨by omega, ih ys zs h1' h2'⟩

theorem stringLess_connex (a b : GoString) (hab : stringLess a b = false)
    (hba : stringLess b a = false) : a = b := by
  induction a generalizing b with
  | nil =>
    cases b with
    | nil => rfl
    | cons y ys => simp [stringLess] at hab
  | cons x xs ih =>
    cases b with
    | nil => simp [stringLess] at hba
    | cons y ys =>
      have h1 : ¬ (x < y ∨ (x = y ∧ stringLess xs ys = true)) := by
        rw [← stringLess_cons]; simp [hab]
      have h2 : ¬ (y < x ∨ (y = x ∧ stringLess ys xs = true)) := by
        rw [← stringLess_cons]; simp [hba]
      have hxy : x = y := by omega
      subst hxy
      have h3 : stringLess xs ys = false := by
        cases h : stringLess xs ys with
        | false => rfl
        | true => exact absurd (Or.inr ⟨rfl, h⟩) h1
      have h4 : stringLess ys xs = false := by
        cases h : stringLess ys xs with
        | false => rfl
        | true => exact absurd (Or.inr ⟨rfl, h⟩) h2
      rw [ih ys h3 h4]

theorem stringLess_le_trans (a b c : GoString) (hab : stringLess b a = false)
    (hbc : stringLess c b = false) : stringLess c a = false := by
  cases h : stringLess c a with
  | false => rfl
  | true =>
    cases h1 : stringLess a b with
    | true =>
      have := stringLess_trans c a b h h1
      rw [this] at hbc
      exact absurd hbc (by simp)
    | false =>
      have hEq := stringLess_connex a b h1 hab
      subst hEq
      rw [h] at hbc
      exact absurd hbc (by simp)

theorem insertSorted_perm (x : GoString) (l : List GoString) :
    (insertSorted x l).Perm (x :: l) := by
  induction l with
  | nil => exact List.Perm.refl _
  | cons y ys ih =>
    unfold insertSorted
    split_ifs
    · exact (List.Perm.cons y ih).trans (List.Perm.swap x y ys)
    · exact List.Perm.refl _

theorem sortStrings_perm (l : List GoString) : (sortStrings l).Perm l := by
  induction l with
  | nil => exact List.Perm.refl _
  | cons x xs ih =>
    exact (insertSorted_perm x (sortStrings xs)).trans (List.Perm.cons x ih)

theorem insertSorted_sorted (x : GoString) (l : List GoString)
    (h : l.Pairwise (fun a b => stringLess b a = false)) :
    (insertSorted x l).Pairwise (fun a b => stringLess b a = false) := by
  induction l with
  | nil => simp [insertSorted]
  | cons y ys ih =>
    rw [List.pairwise_cons] at h
    unfold insertSorted
    split_ifs with hyx
    · rw [List.pairwise_cons]
      refine ⟨?_, ih h.2⟩
      intro z hz
      rcases List.mem_cons.mp ((insertSorted_perm x ys).subset hz) with hz | hz
      · subst hz
        cases hzy : stringLess z y with
        | false => rfl
        | true =>
          have := stringLess_trans _ _ _ hyx hzy
          rw [stringLess_irrefl] at this
          exact absurd this (by simp)
      · exact h.1 z hz
    · have hyx' : stringLess y x = false := by simpa using hyx
      rw [List.pairwise_cons]
      refine ⟨?_, List.pairwise_cons.mpr h⟩
      intro z hz
      rcases List.mem_cons.mp hz with hz | hz
      · subst hz; exact hyx'
      · exact stringLess_le_trans x y z hyx' (h.1 z hz)

theorem sortStrings_sorted (l : List GoString) :
    (sortStrings l).Pairwise (fun a b => stringLess b a = false) := by
  induction l with
  | nil => simp [sortStrings]
  | cons x xs ih => exact insertSorted_sorted x _ ih

theorem sortStrings_eq_of_perm (l₁ l₂ : List GoString) (h : l₁.Perm l₂) :
    sortStrings l₁ = sortStrings l₂ := by
  haveI : IsAntisymm GoString (fun a b => stringLess b a = false) :=
    ⟨fun a b hab hba => stringLess_connex a b hba hab⟩
  exact List.eq_of_perm_of_sorted
    (((sortStrings_perm l₁).trans h).trans (sortStrings_perm l₂).symm)
    (sortStrings_sorted l₁) (sortStrings_sorted l₂)

theorem sortStrings_strict (l : List GoString) (h : l.Nodup) :
    (sortStrings l).Pairwise (fun a b => stringLess a b = true) := by
  have hs := sortStrings_sorted l
  have hn : (sortStrings l).Nodup := (sortStrings_perm l).nodup_iff.mpr h
  have := hs.and hn
  refine this.imp ?_
  intro a b hab
  cases hlt : stringLess a b with
  | true => rfl
  | false => exact absurd (stringLess_connex a b hlt hab.1) hab.2

theorem sortedImports_of_perm (K K' : KeyOrder) (l l' : StrSet) (h : l.Perm l') :
    sortStrings (KeysStr K l) = sortStrings (KeysStr K' l') :=
  sortStrings_eq_of_perm _ _ (((K.perm l).trans h).trans (K'.perm l').symm)

/-! ## Lemmas on lists related pointwise -/

theorem forall2_getElem {α β : Type} {R : α → β → Prop} {l₁ : List α} {l₂ : List β}
    (h : List.Forall₂ R l₁ l₂) (i : Nat) (a : α) (ha : l₁[i]? = some a) :
    ∃ b, l₂[i]? = some b ∧ R a b := by
  induction h generalizing i with
  | nil => simp at ha
  | cons hab _ ih =>
    cases i with
    | zero =>
      simp only [List.getElem?_cons_zero, Option.some.injEq] at ha
      subst ha
      exact ⟨_, by simp, hab⟩
    | succ k =>
      simp only [List.getElem?_cons_succ] at ha
      obtain ⟨b, hb, hr⟩ := ih k ha
      exact ⟨b, by simpa using hb, hr⟩

theorem forall2_mem_left {α β : Type} {R : α → β → Prop} {l₁ : List α} {l₂ : List β}
    (h : List.Forall₂ R l₁ l₂) (a : α) (ha : a ∈ l₁) : ∃ b ∈ l₂, R a b := by
  induction h with
  | nil => simp at ha
  | cons hab _ ih =>
    rcases List.mem_cons.mp ha with ha | ha
    · subst ha; exact ⟨_, List.mem_cons_self _ _, hab⟩
    · obtain ⟨b, hb, hr⟩ := ih ha
      exact ⟨b, List.mem_cons_of_mem _ hb, hr⟩

theorem forall2_mem_right {α β : Type} {R : α → β → Prop} {l₁ : List α} {l₂ : List β}
    (h : List.Forall₂ R l₁ l₂) (b : β) (hb : b ∈ l₂) : ∃ a ∈ l₁, R a b := by
  induction h with
  | nil => simp at hb
  | cons hab _ ih =>
    rcases List.mem_cons.mp hb with hb | hb
    · subst hb; exact ⟨_, List.mem_cons_self _ _, hab⟩
    · obtain ⟨a, ha, hr⟩ := ih hb
      exact ⟨a, List.mem_cons_of_mem _ ha, hr⟩

/-! ## Lemmas on `getRoutes` -/

theorem qualifiedHandler_cons (folder : GoString) (c : Nat) (rest : GoString) :
    qualifiedHandler folder (c :: rest)
      = some (toPrefix folder ++ str "." ++ stringsToUpper [c] ++ rest) := by
  simp [qualifiedHandler, sliceTo, sliceFrom]

theorem qualifiedHandler_nil (folder : GoString) : qualifiedHandler folder [] = none := by
  simp [qualifiedHandler, sliceTo, sliceFrom]

theorem routeHandler_eq (E : Env) (g : Group) (r : Route) :
    routeHandler E g r =
      if resolvedFolder E g r ≠ [] then
        qualifiedHandler (resolvedFolder E g r) (E.getHandlerName r)
      else some (E.getHandlerName r) := by
  unfold routeHandler resolvedFolder
  by_cases h1 : Route.GetAnnotation r E.groupProperty = []
  · by_cases h2 : Group.GetAnnotation g E.groupProperty = []
    · simp [h1, h2]
    · simp [h1, h2, List.length_pos]
  · simp [h1, List.length_pos]

theorem routesLoop_some (E : Env) (g : Group) (rs : List Route) :
    ∀ (acc out : List route), routesLoop E g rs acc = some out →
      ∃ outs, out = acc ++ outs ∧ List.Forall₂ (RouteOut E g) rs outs := by
  induction rs with
  | nil =>
    intro acc out h
    simp only [routesLoop, Option.some.injEq] at h
    exact ⟨[], by simp [h], List.Forall₂.nil⟩
  | cons r rs ih =>
    intro acc out h
    unfold routesLoop at h
    cases hh : routeHandler E g r with
    | none => simp [hh] at h
    | some handler =>
      simp only [hh] at h
      obtain ⟨outs, ho, hf⟩ := ih _ _ h
      refine ⟨{ Method := r.Method, Path := r.Path, Handler := handler } :: outs, ?_, ?_⟩
      · simp [ho]
      · exact List.Forall₂.cons ⟨hh, rfl, rfl⟩ hf

theorem routesLoop_total (E : Env) (g : Group) (rs : List Route) :
    ∀ (acc : List route), (∀ r ∈ rs, ∃ h, routeHandler E g r = some h) →
      ∃ out, routesLoop E g rs acc = some out := by
  induction rs with
  | nil => intro acc _; exact ⟨acc, rfl⟩
  | cons r rs ih =>
    intro acc hall
    obtain ⟨h, hh⟩ := hall r (List.mem_cons_self _ _)
    unfold routesLoop
    simp only [hh]
    exact ih _ (fun r' hr' => hall r' (List.mem_cons_of_mem _ hr'))

theorem groupsLoop_some (E : Env) (gs : List Group) :
    ∀ (acc out : List group), groupsLoop E gs acc = some out →
      ∃ outs, out = acc ++ outs ∧ List.Forall₂ (GroupOut E) gs outs := by
  induction gs with
  | nil =>
    intro acc out h
    simp only [groupsLoop, Option.some.injEq] at h
    exact ⟨[], by simp [h], List.Forall₂.nil⟩
  | cons g gs ih =>
    intro acc out h
    unfold groupsLoop at h
    cases hh : routesLoop E g g.Routes group.zero.Routes with
    | none => simp [hh] at h
    | some rs =>
      simp only [hh] at h
      obtain ⟨outs, ho, hf⟩ := ih _ _ h
      obtain ⟨rs', hrs, hfr⟩ := routesLoop_some E g g.Routes _ _ hh
      have hrs' : rs = rs' := by simpa [group.zero] using hrs
      subst hrs'
      refine ⟨groupOptions g { group.zero with Routes := rs } :: outs, ?_, ?_⟩
      · simp [ho]
      · exact List.Forall₂.cons ⟨rs, hfr, rfl⟩ hf

theorem groupsLoop_total (E : Env) (gs : List Group) :
    ∀ (acc : List group),
      (∀ g ∈ gs, ∀ r ∈ g.Routes, ∃ h, routeHandler E g r = some h) →
      ∃ out, groupsLoop E gs acc = some out := by
  induction gs with
  | nil => intro acc _; exact ⟨acc, rfl⟩
  | cons g gs ih =>
    intro acc hall
    obtain ⟨rs, hrs⟩ := routesLoop_total E g g.Routes group.zero.Routes
      (hall g (List.mem_cons_self _ _))
    unfold groupsLoop
    simp only [hrs]
    exact ih _ (fun g' hg' => hall g' (List.mem_cons_of_mem _ hg'))

theorem getRoutes_some (E : Env) (api : ApiSpec) (out : List group) (err : Option GoError)
    (h : getRoutes E api = some (out, err)) :
    err = none ∧ List.Forall₂ (GroupOut E) api.Service.Groups out := by
  unfold getRoutes at h
  cases hh : groupsLoop E api.Service.Groups [] with
  | none => simp [hh] at h
  | some routes =>
    simp only [hh, Option.some.injEq, Prod.mk.injEq] at h
    obtain ⟨outs, ho, hf⟩ := groupsLoop_some E _ _ _ hh
    simp only [List.nil_append] at ho
    subst ho
    obtain ⟨h1, h2⟩ := h
    subst h1
    exact ⟨h2.symm, hf⟩

theorem routeHandler_sliceable (E : Env) (g : Group) (r : Route)
    (h : resolvedFolder E g r ≠ [] → E.getHandlerName r ≠ []) :
    ∃ x, routeHandler E g r = some x := by
  rw [routeHandler_eq]
  by_cases hf : resolvedFolder E g r = []
  · rw [if_neg (not_not.mpr hf)]
    exact ⟨_, rfl⟩
  · rw [if_pos hf]
    cases hn : E.getHandlerName r with
    | nil => exact absurd hn (h hf)
    | cons c rest => exact ⟨_, qualifiedHandler_cons _ c rest⟩

theorem getRoutes_total (E : Env) (api : ApiSpec) (h : Sliceable E api) :
    ∃ out, getRoutes E api = some (out, none) := by
  obtain ⟨out, ho⟩ := groupsLoop_total E api.Service.Groups []
    (fun g hg r hr => routeHandler_sliceable E g r (h g hg r hr))
  exact ⟨out, by simp [getRoutes, ho]⟩

theorem foldl_middlewares (items : List GoString) :
    ∀ gr : group,
      items.foldl (fun gr item => { gr with Middlewares := gr.Middlewares ++ [item] }) gr
        = { gr with Middlewares := gr.Middlewares ++ items } := by
  induction items with
  | nil => intro gr; simp
  | cons a as ih => intro gr; simp [ih]

theorem groupOptions_Routes (g : Group) (gr : group) : (groupOptions g gr).Routes = gr.Routes := by
  unfold groupOptions
  simp only [foldl_middlewares]
  split_ifs <;> rfl

theorem groupOptions_JwtEnabled (g : Group) (gr : group) :
    (groupOptions g gr).JwtEnabled =
      if Group.GetAnnotation g (str "jwt") ≠ [] then true else gr.JwtEnabled := by
  unfold groupOptions
  simp only [foldl_middlewares, List.length_pos]
  split_ifs <;> rfl

theorem groupOptions_AuthName (g : Group) (gr : group) :
    (groupOptions g gr).AuthName =
      if Group.GetAnnotation g (str "jwt") ≠ [] then Group.GetAnnotation g (str "jwt")
      else gr.AuthName := by
  unfold groupOptions
  simp only [foldl_middlewares, List.length_pos]
  split_ifs <;> rfl

theorem groupOptions_SignatureEnabled (g : Group) (gr : group) :
    (groupOptions g gr).SignatureEnabled =
      if Group.GetAnnotation g (str "signature") = str "true" then true
      else gr.SignatureEnabled := by
  unfold groupOptions
  simp only [foldl_middlewares, List.length_pos]
  split_ifs <;> rfl

theorem groupOptions_Middlewares (g : Group) (gr : group) :
    (groupOptions g gr).Middlewares =
      if Group.GetAnnotation g (str "middleware") ≠ [] then
        gr.Middlewares ++ stringsSplit (Group.GetAnnotation g (str "middleware")) (str ",")
      else gr.Middlewares := by
  unfold groupOptions
  simp only [foldl_middlewares, List.length_pos]
  split_ifs <;> rfl

theorem getRoutes_at (E : Env) (api : ApiSpec) (out : List group) (err : Option GoError)
    (h : getRoutes E api = some (out, err)) (i j : Nat) (g : Group) (r : Route)
    (hg : api.Service.Groups[i]? = some g) (hr : g.Routes[j]? = some r) :
    ∃ og o, out[i]? = some og ∧ og.Routes[j]? = some o ∧ RouteOut E g r o := by
  obtain ⟨_, hf⟩ := getRoutes_some E api out err h
  obtain ⟨og, hog, rs, hrs, hgo⟩ := forall2_getElem hf i g hg
  obtain ⟨o, ho, hro⟩ := forall2_getElem hrs j r hr
  refine ⟨og, o, hog, ?_, hro⟩
  rw [hgo, groupOptions_Routes]
  exact ho

theorem getRoutes_group_at (E : Env) (api : ApiSpec) (out : List group) (err : Option GoError)
    (h : getRoutes E api = some (out, err)) (i : Nat) (g : Group)
    (hg : api.Service.Groups[i]? = some g) :
    ∃ og rs, out[i]? = some og ∧ og = groupOptions g { group.zero with Routes := rs } := by
  obtain ⟨_, hf⟩ := getRoutes_some E api out err h
  obtain ⟨og, hog, rs, _, hgo⟩ := forall2_getElem hf i g hg
  exact ⟨og, rs, hog, hgo⟩

theorem resolvedFolder_congr (E : Env) (g g' : Group) (r r' : Route)
    (hg : g.Annotations = g'.Annotations)
    (hr : Route.GetAnnotation r E.groupProperty = Route.GetAnnotation r' E.groupProperty) :
    resolvedFolder E g r = resolvedFolder E g' r' := by
  unfold resolvedFolder Group.GetAnnotation
  rw [hg, hr]

theorem routeHandler_congr (E : Env) (g g' : Group) (r r' : Route)
    (hg : g.Annotations = g'.Annotations)
    (hr : Route.GetAnnotation r E.groupProperty = Route.GetAnnotation r' E.groupProperty)
    (hn : E.getHandlerName r = E.getHandlerName r') :
    routeHandler E g r = routeHandler E g' r' := by
  rw [routeHandler_eq, routeHandler_eq, resolvedFolder_congr E g g' r r' hg hr, hn]

theorem routesLoop_congr (E : Env) (g g' : Group) (hg : g.Annotations = g'.Annotations)
    (hkey : E.groupProperty ∉ authKeys)
    (hname : ∀ r r', SameButRouteAuth r r' → E.getHandlerName r = E.getHandlerName r')
    {rs rs' : List Route} (h : List.Forall₂ SameButRouteAuth rs rs') :
    ∀ acc, routesLoop E g rs acc = routesLoop E g' rs' acc := by
  induction h with
  | nil => intro acc; rfl
  | cons hab _ ih =>
    intro acc
    unfold routesLoop
    rw [routeHandler_congr E g g' _ _ hg (hab.2.2.2 _ hkey) (hname _ _ hab), hab.1, hab.2.1]
    cases routeHandler E g' _ with
    | none => rfl
    | some handler => exact ih _

theorem groupOptions_congr (g g' : Group) (hg : g.Annotations = g'.Annotations) (gr : group) :
    groupOptions g gr = groupOptions g' gr := by
  unfold groupOptions Group.GetAnnotation
  rw [hg]

theorem groupsLoop_congr (E : Env) (hkey : E.groupProperty ∉ authKeys)
    (hname : ∀ r r', SameButRouteAuth r r' → E.getHandlerName r = E.getHandlerName r')
    {gs gs' : List Group}
    (h : List.Forall₂ (fun g g' => g.Annotations = g'.Annotations ∧
      List.Forall₂ SameButRouteAuth g.Routes g'.Routes) gs gs') :
    ∀ acc, groupsLoop E gs acc = groupsLoop E gs' acc := by
  induction h with
  | nil => intro acc; rfl
  | cons hab _ ih =>
    intro acc
    unfold groupsLoop
    rw [routesLoop_congr E _ _ hab.1 hkey hname hab.2]
    cases routesLoop E _ _ group.zero.Routes with
    | none => rfl
    | some rs =>
      simp only [groupOptions_congr _ _ hab.1]
      exact ih _

/-! ## Lemmas on `genRouteImports` -/

theorem mem_AddStr (s : StrSet) (k x : GoString) : x ∈ AddStr s k ↔ x ∈ s ∨ x = k := by
  unfold AddStr
  split_ifs with h
  · constructor
    · exact Or.inl
    · rintro (h' | h')
      · exact h'
      · subst h'; exact h
  · simp

theorem nodup_AddStr (s : StrSet) (k : GoString) (h : s.Nodup) : (AddStr s k).Nodup := by
  unfold AddStr
  split_ifs with hk
  · exact h
  · rw [List.nodup_append]
    refine ⟨h, List.nodup_singleton k, ?_⟩
    intro a ha hb
    rw [List.mem_singleton] at hb
    subst hb
    exact hk ha

theorem importStep_eq (E : Env) (parentPkg : GoString) (g : Group) (s : StrSet) (r : Route) :
    importStep E parentPkg g s r =
      if resolvedFolder E g r = [] then s
      else AddStr s (handlerImport E parentPkg (resolvedFolder E g r)) := by
  unfold importStep resolvedFolder
  by_cases h1 : Route.GetAnnotation r E.groupProperty = []
  · by_cases h2 : Group.GetAnnotation g E.groupProperty = []
    · simp [h1, h2]
    · simp [h1, h2]
  · simp [h1]

theorem routesFold_nodup (E : Env) (parentPkg : GoString) (g : Group) (rs : List Route) :
    ∀ s : StrSet, s.Nodup → (rs.foldl (importStep E parentPkg g) s).Nodup := by
  induction rs with
  | nil => intro s h; exact h
  | cons r rs ih =>
    intro s h
    rw [List.foldl_cons]
    apply ih
    rw [importStep_eq]
    split_ifs
    · exact h
    · exact nodup_AddStr _ _ h

theorem mem_routesFold (E : Env) (parentPkg : GoString) (g : Group) (rs : List Route)
    (x : GoString) :
    ∀ s : StrSet, x ∈ rs.foldl (importStep E parentPkg g) s ↔
      x ∈ s ∨ ∃ r ∈ rs, resolvedFolder E g r ≠ [] ∧
        x = handlerImport E parentPkg (resolvedFolder E g r) := by
  induction rs with
  | nil => intro s; simp
  | cons r rs ih =>
    intro s
    rw [List.foldl_cons, ih, importStep_eq]
    by_cases hf : resolvedFolder E g r = []
    · simp [hf]
    · simp only [hf, if_false, mem_AddStr, List.mem_cons, exists_eq_or_imp, ne_eq,
        not_false_eq_true, true_and]
      tauto

theorem groupsFold_nodup (E : Env) (parentPkg : GoString) (gs : List Group) :
    ∀ s : StrSet, s.Nodup →
      (gs.foldl (fun set g => g.Routes.foldl (importStep E parentPkg g) set) s).Nodup := by
  induction gs with
  | nil => intro s h; exact h
  | cons g gs ih =>
    intro s h
    rw [List.foldl_cons]
    exact ih _ (routesFold_nodup E parentPkg g g.Routes s h)

theorem mem_groupsFold (E : Env) (parentPkg : GoString) (gs : List Group) (x : GoString) :
    ∀ s : StrSet,
      x ∈ gs.foldl (fun set g => g.Routes.foldl (importStep E parentPkg g) set) s ↔
        x ∈ s ∨ ∃ g ∈ gs, ∃ r ∈ g.Routes, resolvedFolder E g r ≠ [] ∧
          x = handlerImport E parentPkg (resolvedFolder E g r) := by
  induction gs with
  | nil => intro s; simp
  | cons g gs ih =>
    intro s
    rw [List.foldl_cons, ih, mem_routesFold]
    simp only [List.mem_cons, exists_eq_or_imp]
    rw [or_assoc]

theorem importSet_nodup (E : Env) (parentPkg : GoString) (api : ApiSpec) :
    (importSet E parentPkg api).Nodup :=
  groupsFold_nodup E parentPkg _ _ (nodup_AddStr _ _ List.nodup_nil)

theorem mem_importSet (E : Env) (parentPkg : GoString) (api : ApiSpec) (x : GoString) :
    x ∈ importSet E parentPkg api ↔
      x = contextImport E parentPkg ∨
      ∃ g ∈ api.Service.Groups, ∃ r ∈ g.Routes, resolvedFolder E g r ≠ [] ∧
        x = handlerImport E parentPkg (resolvedFolder E g r) := by
  unfold importSet
  rw [mem_groupsFold, mem_AddStr]
  simp [NewSet]

theorem mem_resolvedFolders (E : Env) (api : ApiSpec) (f : GoString) :
    f ∈ resolvedFolders E api ↔
      ∃ g ∈ api.Service.Groups, ∃ r ∈ g.Routes, resolvedFolder E g r ≠ [] ∧
        f = resolvedFolder E g r := by
  unfold resolvedFolders
  simp only [List.mem_flatMap, List.mem_filter, List.mem_map, decide_eq_true_eq]
  constructor
  · rintro ⟨g, hg, ⟨r, hr, rfl⟩, hne⟩
    exact ⟨g, hg, r, hr, hne, rfl⟩
  · rintro ⟨g, hg, r, hr, hne, rfl⟩
    exact ⟨g, hg, ⟨r, hr, rfl⟩, hne⟩

theorem contextImport_eq (E : Env) (parentPkg : GoString) :
    contextImport E parentPkg = 34 :: (parentPkg ++ 47 :: (E.contextDir ++ [34])) := by
  have h1 : str "\"" = [34] := by decide
  have h2 : str "/" = [47] := by decide
  simp [contextImport, JoinPackages, stringsJoin, h1, h2]

theorem handlerImport_eq (E : Env) (parentPkg folder : GoString) :
    handlerImport E parentPkg folder =
      toPrefix folder ++ 32 :: 34 :: (parentPkg ++ 47 :: (E.handlerDir ++ 47 :: (folder ++ [34]))) := by
  have h1 : str "\"" = [34] := by decide
  have h2 : str "/" = [47] := by decide
  have h3 : str " \"" = [32, 34] := by decide
  simp [handlerImport, JoinPackages, stringsJoin, h1, h2, h3]

theorem contextImport_words (E : Env) (parentPkg : GoString) :
    contextImport E parentPkg = str "\"" ++ (parentPkg ++ str "/" ++ E.contextDir) ++ str "\"" := by
  simp [contextImport, JoinPackages, stringsJoin]

theorem handlerImport_words (E : Env) (parentPkg folder : GoString) :
    handlerImport E parentPkg folder =
      toPrefix folder ++ str " \"" ++
        (parentPkg ++ str "/" ++ E.handlerDir ++ str "/" ++ folder) ++ str "\"" := by
  simp [handlerImport, JoinPackages, stringsJoin]

theorem depSection_words (E : Env) :
    depSection E = str "\"" ++ E.ProjectOpenSourceURL ++ str "/rest" ++ str "\"" := by
  have h : str "/rest\"" = str "/rest" ++ str "\"" := by decide
  simp [depSection, h]

theorem handlerImport_injective (E : Env) (parentPkg f f' : GoString)
    (h : handlerImport E parentPkg f = handlerImport E parentPkg f') : f = f' := by
  rw [handlerImport_eq, handlerImport_eq, toPrefix_eq_filter, toPrefix_eq_filter] at h
  have hlen := congrArg List.length h
  simp only [List.length_append, List.length_cons, List.length_nil] at hlen
  have h' : (f.filter (fun c => decide (c ≠ 47)) ++ 32 :: 34 :: (parentPkg ++ 47 :: (E.handlerDir ++ [47]))) ++ (f ++ [34])
      = (f'.filter (fun c => decide (c ≠ 47)) ++ 32 :: 34 :: (parentPkg ++ 47 :: (E.handlerDir ++ [47]))) ++ (f' ++ [34]) := by
    simpa using h
  rw [List.append_eq_append_iff] at h'
  rcases h' with ⟨a, h1, h2⟩ | ⟨a, h1, h2⟩
  · have hf : f = a ++ f' := by
      rw [← List.append_assoc] at h2
      exact List.append_cancel_right h2
    subst hf
    have h3 := congrArg List.length h1
    simp only [List.length_append, List.length_cons, List.length_nil,
      List.filter_append] at h3
    have ha : a.length = 0 := by omega
    rw [List.length_eq_zero] at ha
    subst ha
    rfl
  · have hf : f' = a ++ f := by
      rw [← List.append_assoc] at h2
      exact List.append_cancel_right h2
    subst hf
    have h3 := congrArg List.length h1
    simp only [List.length_append, List.length_cons, List.length_nil,
      List.filter_append] at h3
    have ha : a.length = 0 := by omega
    rw [List.length_eq_zero] at ha
    subst ha
    rfl

theorem takeWhile_append_stop (p : Nat → Bool) (l : List Nat) (x : Nat) (hx : p x = false)
    (rest : List Nat) : (l ++ x :: rest).takeWhile p = l.takeWhile p := by
  induction l with
  | nil => simp [List.takeWhile, hx]
  | cons a as ih =>
    simp only [List.cons_append, List.takeWhile_cons]
    split_ifs
    · rw [ih]
    · rfl

theorem takeWhile_append_all (p : Nat → Bool) (l : List Nat) (hl : ∀ a ∈ l, p a = true)
    (rest : List Nat) : (l ++ rest).takeWhile p = l ++ rest.takeWhile p := by
  induction l with
  | nil => rfl
  | cons a as ih =>
    simp only [List.cons_append, List.takeWhile_cons,
      hl a (List.mem_cons_self _ _), if_true]
    rw [ih (fun b hb => hl b (List.mem_cons_of_mem _ hb))]

theorem contextImport_ne_handlerImport (E : Env) (parentPkg f : GoString) :
    contextImport E parentPkg ≠ handlerImport E parentPkg f := by
  intro h
  rw [contextImport_eq, handlerImport_eq, toPrefix_eq_filter] at h
  have h1 := congrArg (fun l => (l.takeWhile (fun c => decide (c ≠ 47))).length) h
  have hL : (34 :: (parentPkg ++ 47 :: (E.contextDir ++ [34]))).takeWhile
      (fun c => decide (c ≠ 47)) = 34 :: parentPkg.takeWhile (fun c => decide (c ≠ 47)) := by
    rw [List.takeWhile_cons]
    simp only [ne_eq, Nat.reduceEqDiff, not_false_eq_true, decide_True, if_true]
    rw [takeWhile_append_stop _ _ 47 (by simp)]
  have hR : (f.filter (fun c => decide (c ≠ 47)) ++
      32 :: 34 :: (parentPkg ++ 47 :: (E.handlerDir ++ 47 :: (f ++ [34])))).takeWhile
      (fun c => decide (c ≠ 47))
      = f.filter (fun c => decide (c ≠ 47)) ++
          32 :: 34 :: parentPkg.takeWhile (fun c => decide (c ≠ 47)) := by
    rw [takeWhile_append_all _ _ (fun a ha => (List.mem_filter.mp ha).2)]
    rw [List.takeWhile_cons]
    simp only [ne_eq, Nat.reduceEqDiff, not_false_eq_true, decide_True, if_true]
    rw [List.takeWhile_cons]
    simp only [ne_eq, Nat.reduceEqDiff, not_false_eq_true, decide_True, if_true]
    rw [takeWhile_append_stop _ _ 47 (by simp)]
  simp only [hL, hR, List.length_append, List.length_cons] at h1
  omega

theorem importSet_perm_lines (E : Env) (parentPkg : GoString) (api : ApiSpec) :
    (importSet E parentPkg api).Perm
      (contextImport E parentPkg ::
        (resolvedFolders E api).dedup.map (handlerImport E parentPkg)) := by
  have hinj : Function.Injective (handlerImport E parentPkg) :=
    fun f f' h => handlerImport_injective E parentPkg f f' h
  have hnd : (contextImport E parentPkg ::
      (resolvedFolders E api).dedup.map (handlerImport E parentPkg)).Nodup := by
    rw [List.nodup_cons]
    refine ⟨?_, (List.nodup_dedup _).map hinj⟩
    intro hmem
    obtain ⟨f, _, hf⟩ := List.mem_map.mp hmem
    exact contextImport_ne_handlerImport E parentPkg f hf.symm
  rw [List.perm_ext_iff_of_nodup (importSet_nodup E parentPkg api) hnd]
  intro x
  rw [mem_importSet, List.mem_cons, List.mem_map]
  constructor
  · rintro (h | ⟨g, hg, r, hr, hne, hx⟩)
    · exact Or.inl h
    · refine Or.inr ⟨resolvedFolder E g r, ?_, hx.symm⟩
      rw [List.mem_dedup, mem_resolvedFolders]
      exact ⟨g, hg, r, hr, hne, rfl⟩
  · rintro (h | ⟨f, hf, hx⟩)
    · exact Or.inl h
    · rw [List.mem_dedup, mem_resolvedFolders] at hf
      obtain ⟨g, hg, r, hr, hne, hfr⟩ := hf
      exact Or.inr ⟨g, hg, r, hr, hne, by rw [← hx, hfr]⟩

theorem sortedImports_perm (K : KeyOrder) (E : Env) (parentPkg : GoString) (api : ApiSpec) :
    (sortedImports K E parentPkg api).Perm (importSet E parentPkg api) :=
  (sortStrings_perm _).trans (K.perm _)

theorem importSet_perm_of_rearranged (E : Env) (parentPkg : GoString) (a b : ApiSpec)
    (h : Rearranged a b) : (importSet E parentPkg a).Perm (importSet E parentPkg b) := by
  obtain ⟨mid, hf, hp⟩ := h
  rw [List.perm_ext_iff_of_nodup (importSet_nodup E parentPkg a) (importSet_nodup E parentPkg b)]
  intro x
  rw [mem_importSet, mem_importSet]
  refine or_congr Iff.rfl ?_
  constructor
  · rintro ⟨g, hg, r, hr, hne, hx⟩
    obtain ⟨g', hg', hann, hperm⟩ := forall2_mem_left hf g hg
    have hc := resolvedFolder_congr E g g' r r hann.symm rfl
    exact ⟨g', hp.subset hg', r, hperm.symm.subset hr, by rw [← hc]; exact hne, by rw [← hc]; exact hx⟩
  · rintro ⟨g', hg', r, hr, hne, hx⟩
    obtain ⟨g, hg, hann, hperm⟩ := forall2_mem_right hf g' (hp.symm.subset hg')
    have hc := resolvedFolder_congr E g g' r r hann.symm rfl
    exact ⟨g, hg, r, hperm.subset hr, by rw [hc]; exact hne, by rw [hc]; exact hx⟩

theorem importStep_congr (E : Env) (parentPkg : GoString) (g g' : Group) (r r' : Route)
    (hg : g.Annotations = g'.Annotations)
    (hr : Route.GetAnnotation r E.groupProperty = Route.GetAnnotation r' E.groupProperty)
    (s : StrSet) : importStep E parentPkg g s r = importStep E parentPkg g' s r' := by
  rw [importStep_eq, importStep_eq, resolvedFolder_congr E g g' r r' hg hr]

theorem routesFold_congr (E : Env) (parentPkg : GoString) (g g' : Group)
    (hg : g.Annotations = g'.Annotations) (hkey : E.groupProperty ∉ authKeys)
    {rs rs' : List Route} (h : List.Forall₂ SameButRouteAuth rs rs') :
    ∀ s, rs.foldl (importStep E parentPkg g) s = rs'.foldl (importStep E parentPkg g') s := by
  induction h with
  | nil => intro s; rfl
  | cons hab _ ih =>
    intro s
    rw [List.foldl_cons, List.foldl_cons,
      importStep_congr E parentPkg g g' _ _ hg (hab.2.2.2 _ hkey)]
    exact ih _

theorem groupsFold_congr (E : Env) (parentPkg : GoString) (hkey : E.groupProperty ∉ authKeys)
    {gs gs' : List Group}
    (h : List.Forall₂ (fun g g' => g.Annotations = g'.Annotations ∧
      List.Forall₂ SameButRouteAuth g.Routes g'.Routes) gs gs') :
    ∀ s, gs.foldl (fun set g => g.Routes.foldl (importStep E parentPkg g) set) s
      = gs'.foldl (fun set g => g.Routes.foldl (importStep E parentPkg g) set) s := by
  induction h with
  | nil => intro s; rfl
  | cons hab _ ih =>
    intro s
    rw [List.foldl_cons, List.foldl_cons, routesFold_congr E parentPkg _ _ hab.1 hkey hab.2]
    exact ih _

/-! ## Handler names emitted by `getRoutes` -/

/-- C1: for a route `r` at position `j` of the group `g` at position `i`, whose
handler name is the non-empty `c :: rest` with `c` an ASCII byte and whose
resolved folder `f` (its own annotation if non-empty, else the group's) is
non-empty: every result of `getRoutes` has at position `i`, `j` the handler
`toPrefix f ++ "." ++` the name with `c` upper-cased and `rest` unchanged; and
`getRoutes` does return a result, with a nil error, whenever the names it
slices are non-empty. -/
theorem getRoutes_handler_qualified (E : Env) (api : ApiSpec) (i j : Nat) (g : Group)
    (r : Route) (c : Nat) (rest : GoString)
    (hg : api.Service.Groups[i]? = some g) (hr : g.Routes[j]? = some r)
    (hname : E.getHandlerName r = c :: rest) (hascii : c < 128)
    (hf : resolvedFolder E g r ≠ []) :
    (∀ out err, getRoutes E api = some (out, err) →
      ∃ og o, out[i]? = some og ∧ og.Routes[j]? = some o ∧
        o.Handler = toPrefix (resolvedFolder E g r) ++ str "." ++ upperASCII c :: rest) ∧
    (Sliceable E api → ∃ out, getRoutes E api = some (out, none)) := by
  refine ⟨?_, getRoutes_total E api⟩
  intro out err h
  obtain ⟨og, o, hog, ho, hro, _, _⟩ := getRoutes_at E api out err h i j g r hg hr
  refine ⟨og, o, hog, ho, ?_⟩
  rw [routeHandler_eq, if_pos hf, hname, qualifiedHandler_cons,
    stringsToUpper_ascii c hascii] at hro
  have := Option.some.inj hro
  rw [← this]
  simp

/-- Witness of C1: route `getUser` with its own folder `user`, inside a group
with folder `b`, gets the handler `user.GetUser`; the route's folder wins. -/
theorem getRoutes_handler_qualified_witness :
    (∀ out err, getRoutes Env.sample sampleApi = some (out, err) →
      ∃ og o, out[0]? = some og ∧ og.Routes[0]? = some o ∧ o.Handler = str "user.GetUser") ∧
    (∃ out, getRoutes Env.sample sampleApi = some (out, none)) := by
  have h := getRoutes_handler_qualified Env.sample sampleApi 0 0 sampleGroup sampleRoute
    103 (str "etUser") (by decide) (by decide) (by decide) (by decide) (by decide)
  exact ⟨h.1, h.2 (by decide)⟩

/-- C2: for a route `r` at position `j` of the group `g` at position `i`, when
both the route's own grouping-folder annotation and the group's are empty, every
result of `getRoutes` has at position `i`, `j` the handler name of `r` itself,
unchanged; and `getRoutes` does return a result, with a nil error, whenever the
names it slices are non-empty. -/
theorem getRoutes_handler_bare (E : Env) (api : ApiSpec) (i j : Nat) (g : Group) (r : Route)
    (hg : api.Service.Groups[i]? = some g) (hr : g.Routes[j]? = some r)
    (hroute : Route.GetAnnotation r E.groupProperty = [])
    (hgroup : Group.GetAnnotation g E.groupProperty = []) :
    (∀ out err, getRoutes E api = some (out, err) →
      ∃ og o, out[i]? = some og ∧ og.Routes[j]? = some o ∧ o.Handler = E.getHandlerName r) ∧
    (Sliceable E api → ∃ out, getRoutes E api = some (out, none)) := by
  refine ⟨?_, getRoutes_total E api⟩
  intro out err h
  obtain ⟨og, o, hog, ho, hro, _, _⟩ := getRoutes_at E api out err h i j g r hg hr
  refine ⟨og, o, hog, ho, ?_⟩
  have hf : resolvedFolder E g r = [] := by simp [resolvedFolder, hroute, hgroup]
  rw [routeHandler_eq, if_neg (not_not.mpr hf)] at hro
  exact (Option.some.inj hro).symm

/-- Witness of C2: route `login`, with no folder on the route or on its group,
keeps the handler `login`. -/
theorem getRoutes_handler_bare_witness :
    (∀ out err, getRoutes Env.sample bareApi = some (out, err) →
      ∃ og o, out[0]? = some og ∧ og.Routes[0]? = some o ∧ o.Handler = str "login") ∧
    (∃ out, getRoutes Env.sample bareApi = some (out, none)) := by
  have h := getRoutes_handler_bare Env.sample bareApi 0 0 bareGroup bareRoute
    (by decide) (by decide) (by decide) (by decide)
  exact ⟨h.1, h.2 (by decide)⟩

/-- C3: for a service whose routes all have a non-empty handler name,
`getRoutes` returns, with a nil error, a list with as many groups as the input;
its group at position `i` has as many routes as the input group at position
`i`, and its route at position `j` there carries the Method and the Path of the
input route at position `j`. -/
theorem getRoutes_order (E : Env) (api : ApiSpec)
    (hne : ∀ g ∈ api.Service.Groups, ∀ r ∈ g.Routes, E.getHandlerName r ≠ []) :
    ∃ out, getRoutes E api = some (out, none) ∧
      out.length = api.Service.Groups.length ∧
      ∀ (i : Nat) (g : Group), api.Service.Groups[i]? = some g →
        ∃ og : group, out[i]? = some og ∧ og.Routes.length = g.Routes.length ∧
          ∀ (j : Nat) (r : Route), g.Routes[j]? = some r →
            ∃ o : route, og.Routes[j]? = some o ∧ o.Method = r.Method ∧ o.Path = r.Path := by
  obtain ⟨out, hout⟩ := getRoutes_total E api (fun g hg r hr _ => hne g hg r hr)
  obtain ⟨_, hf⟩ := getRoutes_some E api out none hout
  refine ⟨out, hout, hf.length_eq.symm, ?_⟩
  intro i g hg
  obtain ⟨og, hog, rs, hrs, hgo⟩ := forall2_getElem hf i g hg
  have hR : og.Routes = rs := by rw [hgo, groupOptions_Routes]
  refine ⟨og, hog, ?_, ?_⟩
  · rw [hR]; exact hrs.length_eq.symm
  · intro j r hr
    obtain ⟨o, ho, _, hm, hp⟩ := forall2_getElem hrs j r hr
    exact ⟨o, by rw [hR]; exact ho, hm, hp⟩

/-- Witness of C3: a service of two groups, of two routes and of one route. -/
theorem getRoutes_order_witness :
    ∃ out, getRoutes Env.sample orderApi = some (out, none) ∧
      out.length = 2 ∧
      ∀ (i : Nat) (g : Group), orderApi.Service.Groups[i]? = some g →
        ∃ og : group, out[i]? = some og ∧ og.Routes.length = g.Routes.length ∧
          ∀ (j : Nat) (r : Route), g.Routes[j]? = some r →
            ∃ o : route, og.Routes[j]? = some o ∧ o.Method = r.Method ∧ o.Path = r.Path :=
  getRoutes_order Env.sample orderApi (by decide)

/-! ## The import block of `genRouteImports` -/

/-- C4: the text returned by `genRouteImports` is the lines of `sortedImports`
joined, then the blank-line separator, then the dependency section; those lines
have no repetition; a line is among them exactly when it is the quoted context
line `"<root>/<contextDir>"` or, for some route with a non-empty resolved folder
`f`, the line `toPrefix f ++ " \"" ++ <root>/<handlerDir>/f ++ "\""`; their number
is 1 plus the number of distinct non-empty resolved folders; and the context
line is always among them. -/
theorem genRouteImports_lines (K : KeyOrder) (E : Env) (parentPkg : GoString) (api : ApiSpec) :
    genRouteImports K E parentPkg api =
        stringsJoin (sortedImports K E parentPkg api) (str "\n\t") ++ str "\n\n\t" ++
          depSection E ∧
    (sortedImports K E parentPkg api).Nodup ∧
    (∀ line, line ∈ sortedImports K E parentPkg api ↔
      line = str "\"" ++ (parentPkg ++ str "/" ++ E.contextDir) ++ str "\"" ∨
      ∃ g ∈ api.Service.Groups, ∃ r ∈ g.Routes, resolvedFolder E g r ≠ [] ∧
        line = toPrefix (resolvedFolder E g r) ++ str " \"" ++
          (parentPkg ++ str "/" ++ E.handlerDir ++ str "/" ++ resolvedFolder E g r) ++
          str "\"") ∧
    (sortedImports K E parentPkg api).length = 1 + (resolvedFolders E api).dedup.length ∧
    str "\"" ++ (parentPkg ++ str "/" ++ E.contextDir) ++ str "\"" ∈
      sortedImports K E parentPkg api := by
  have hp := sortedImports_perm K E parentPkg api
  have hmem : ∀ line, line ∈ sortedImports K E parentPkg api ↔
      line = str "\"" ++ (parentPkg ++ str "/" ++ E.contextDir) ++ str "\"" ∨
      ∃ g ∈ api.Service.Groups, ∃ r ∈ g.Routes, resolvedFolder E g r ≠ [] ∧
        line = toPrefix (resolvedFolder E g r) ++ str " \"" ++
          (parentPkg ++ str "/" ++ E.handlerDir ++ str "/" ++ resolvedFolder E g r) ++
          str "\"" := by
    intro line
    rw [hp.mem_iff, mem_importSet, contextImport_words]
    simp only [handlerImport_words]
  refine ⟨rfl, hp.nodup_iff.mpr (importSet_nodup E parentPkg api), hmem, ?_, ?_⟩
  · rw [(hp.trans (importSet_perm_lines E parentPkg api)).length_eq]
    simp [Nat.add_comm]
  · exact (hmem _).mpr (Or.inl rfl)

/-- Example for C4: folder `orders` is resolved by routes of two groups and has
one line; a service without routes has the context line alone. -/
theorem genRouteImports_lines_example :
    sortedImports KeyOrder.insertion Env.sample (str "root") zetaAlphaApi =
      [str "\"root/svc\"", str "alpha \"root/handler/alpha\"",
       str "orders \"root/handler/orders\"", str "zeta \"root/handler/zeta\""] ∧
    (sortedImports KeyOrder.insertion Env.sample (str "root") zetaAlphaApi).length =
      1 + (resolvedFolders Env.sample zetaAlphaApi).dedup.length ∧
    sortedImports KeyOrder.insertion Env.sample (str "root") ⟨⟨[]⟩⟩ = [str "\"root/svc\""] :=
  ⟨by decide, (genRouteImports_lines KeyOrder.insertion Env.sample (str "root") zetaAlphaApi).2.2.2.1,
    by decide⟩

/-- C5: the text returned by `genRouteImports` is the lines of `sortedImports`
joined by newline and tab, followed by two newlines, a tab and the quoted
framework import `"<ProjectOpenSourceURL>/rest"`; the lines are in strictly
ascending lexicographic order on bytes; they are the lines collected in the set
of imports; and they do not depend on the order in which the set hands out its
keys. -/
theorem genRouteImports_layout (K : KeyOrder) (E : Env) (parentPkg : GoString) (api : ApiSpec) :
    genRouteImports K E parentPkg api =
        stringsJoin (sortedImports K E parentPkg api) (str "\n\t") ++ str "\n\n\t" ++
          (str "\"" ++ E.ProjectOpenSourceURL ++ str "/rest" ++ str "\"") ∧
    (sortedImports K E parentPkg api).Pairwise (fun a b => List.Lex (· < ·) a b) ∧
    (sortedImports K E parentPkg api).Perm (importSet E parentPkg api) ∧
    ∀ K' : KeyOrder, sortedImports K' E parentPkg api = sortedImports K E parentPkg api := by
  refine ⟨?_, ?_, sortedImports_perm K E parentPkg api, ?_⟩
  · rw [← depSection_words]; rfl
  · have h := sortStrings_strict (KeysStr K (importSet E parentPkg api))
      ((K.perm _).nodup_iff.mpr (importSet_nodup E parentPkg api))
    exact h.imp (fun {a b} hab => (stringLess_iff_lex a b).mp hab)
  · intro K'
    exact sortedImports_of_perm K' K _ _ (List.Perm.refl _)

/-- Example for C5: with folder `zeta` met before folder `alpha`, and also with
the keys handed out in reverse, the `alpha` line comes before the `zeta` line. -/
theorem genRouteImports_layout_example :
    genRouteImports KeyOrder.insertion Env.sample (str "root") zetaAlphaApi =
      str ("\"root/svc\"\n\talpha \"root/handler/alpha\"\n\torders \"root/handler/orders\"" ++
        "\n\tzeta \"root/handler/zeta\"\n\n\t\"github.com/tal-tech/go-zero/rest\"") ∧
    genRouteImports KeyOrder.reversed Env.sample (str "root") zetaAlphaApi =
      genRouteImports KeyOrder.insertion Env.sample (str "root") zetaAlphaApi := by
  refine ⟨by decide, ?_⟩
  have h := (genRouteImports_layout KeyOrder.insertion Env.sample (str "root")
    zetaAlphaApi).2.2.2 KeyOrder.reversed
  unfold genRouteImports
  rw [h]

/-- C6: when one description is the other with its groups permuted and the
routes inside each group permuted, `genRouteImports` returns the same text for
both, whatever order the set hands out its keys in either run. -/
theorem genRouteImports_rearranged (K K' : KeyOrder) (E : Env) (parentPkg : GoString)
    (a b : ApiSpec) (h : Rearranged a b) :
    genRouteImports K E parentPkg a = genRouteImports K' E parentPkg b := by
  unfold genRouteImports sortedImports
  rw [sortedImports_of_perm K K' _ _ (importSet_perm_of_rearranged E parentPkg a b h)]

/-- Witness of C6: `alphaZetaApi` is `zetaAlphaApi` with the groups swapped and
the routes of each group reversed, and both give the same import block. -/
theorem genRouteImports_rearranged_witness :
    Rearranged zetaAlphaApi alphaZetaApi ∧
    genRouteImports KeyOrder.insertion Env.sample (str "root") zetaAlphaApi =
      genRouteImports KeyOrder.reversed Env.sample (str "root") alphaZetaApi := by
  have hre : Rearranged zetaAlphaApi alphaZetaApi :=
    ⟨alphaZetaGroups.reverse,
      List.Forall₂.cons ⟨rfl, by decide⟩ (List.Forall₂.cons ⟨rfl, by decide⟩ List.Forall₂.nil),
      by decide⟩
  exact ⟨hre, genRouteImports_rearranged _ _ Env.sample (str "root") _ _ hre⟩

/-! ## The group-level options of `getRoutes` -/

/-- C7: for the group `g` at position `i`, every result of `getRoutes` has at
position `i` a group whose `JwtEnabled` is true exactly when the `jwt`
annotation of `g` is non-empty, whose `AuthName` is that annotation when it is
non-empty and the empty string when it is empty; and `getRoutes` does return a
result, with a nil error, whenever the names it slices are non-empty. -/
theorem getRoutes_jwt (E : Env) (api : ApiSpec) (i : Nat) (g : Group)
    (hg : api.Service.Groups[i]? = some g) :
    (∀ out err, getRoutes E api = some (out, err) →
      ∃ og : group, out[i]? = some og ∧
        (og.JwtEnabled = true ↔ Group.GetAnnotation g (str "jwt") ≠ []) ∧
        (Group.GetAnnotation g (str "jwt") ≠ [] →
          og.AuthName = Group.GetAnnotation g (str "jwt")) ∧
        (Group.GetAnnotation g (str "jwt") = [] → og.AuthName = [])) ∧
    (Sliceable E api → ∃ out, getRoutes E api = some (out, none)) := by
  refine ⟨?_, getRoutes_total E api⟩
  intro out err h
  obtain ⟨og, rs, hog, hgo⟩ := getRoutes_group_at E api out err h i g hg
  refine ⟨og, hog, ?_, ?_, ?_⟩
  · rw [hgo, groupOptions_JwtEnabled]
    by_cases hj : Group.GetAnnotation g (str "jwt") = [] <;> simp [hj, group.zero]
  · intro hj
    rw [hgo, groupOptions_AuthName, if_pos hj]
  · intro hj
    rw [hgo, groupOptions_AuthName, if_neg (not_not.mpr hj)]
    rfl

/-- Witness of C7: a group with `jwt` set to `Auth` gives `JwtEnabled` true and
`AuthName` `Auth`. -/
theorem getRoutes_jwt_witness :
    (∀ out err, getRoutes Env.sample authApi = some (out, err) →
      ∃ og : group, out[0]? = some og ∧ og.JwtEnabled = true ∧ og.AuthName = str "Auth") ∧
    (∃ out, getRoutes Env.sample authApi = some (out, none)) := by
  have h := getRoutes_jwt Env.sample authApi 0 authGroup (by decide)
  refine ⟨?_, h.2 (by decide)⟩
  intro out err ho
  obtain ⟨og, hog, hjwt, hname, _⟩ := h.1 out err ho
  exact ⟨og, hog, hjwt.mpr (by decide), hname (by decide)⟩

/-- C8: for the group `g` at position `i`, every result of `getRoutes` has at
position `i` a group whose `SignatureEnabled` is true exactly when the
`signature` annotation of `g` is the string `true`; the values `True`, `TRUE`,
`1` and ` true` give false; and `getRoutes` does return a result, with a nil
error, whenever the names it slices are non-empty. -/
theorem getRoutes_signature (E : Env) (api : ApiSpec) (i : Nat) (g : Group)
    (hg : api.Service.Groups[i]? = some g) :
    (∀ out err, getRoutes E api = some (out, err) →
      ∃ og : group, out[i]? = some og ∧
        (og.SignatureEnabled = true ↔ Group.GetAnnotation g (str "signature") = str "true") ∧
        (Group.GetAnnotation g (str "signature") ∈
            [str "True", str "TRUE", str "1", str " true"] →
          og.SignatureEnabled = false)) ∧
    (Sliceable E api → ∃ out, getRoutes E api = some (out, none)) := by
  refine ⟨?_, getRoutes_total E api⟩
  intro out err h
  obtain ⟨og, rs, hog, hgo⟩ := getRoutes_group_at E api out err h i g hg
  have hiff : og.SignatureEnabled = true ↔
      Group.GetAnnotation g (str "signature") = str "true" := by
    rw [hgo, groupOptions_SignatureEnabled]
    by_cases hs : Group.GetAnnotation g (str "signature") = str "true" <;>
      simp [hs, group.zero]
  refine ⟨og, hog, hiff, ?_⟩
  intro hmem
  have hne : Group.GetAnnotation g (str "signature") ≠ str "true" := by
    intro he
    rw [he] at hmem
    revert hmem
    decide
  cases hb : og.SignatureEnabled with
  | false => rfl
  | true => exact absurd (hiff.mp hb) hne

/-- Witness of C8: a group with `signature` set to the capitalised `True` gives
`SignatureEnabled` false. -/
theorem getRoutes_signature_witness :
    (∀ out err, getRoutes Env.sample capitalApi = some (out, err) →
      ∃ og : group, out[0]? = some og ∧ og.SignatureEnabled = false) ∧
    (∃ out, getRoutes Env.sample capitalApi = some (out, none)) := by
  have h := getRoutes_signature Env.sample capitalApi 0 capitalGroup (by decide)
  refine ⟨?_, h.2 (by decide)⟩
  intro out err ho
  obtain ⟨og, hog, _, hfalse⟩ := h.1 out err ho
  exact ⟨og, hog, hfalse (by decide)⟩

/-- C9: for the group `g` at position `i` with `middleware` annotation `m`,
every result of `getRoutes` has at position `i` a group whose `Middlewares` is
empty when `m` is empty and otherwise is `strings.Split(m, ",")`: it has one
entry more than `m` has commas (byte 44), no entry contains a comma, and the
entries joined by a comma give back `m`; and `getRoutes` does return a result,
with a nil error, whenever the names it slices are non-empty. -/
theorem getRoutes_middlewares (E : Env) (api : ApiSpec) (i : Nat) (g : Group)
    (hg : api.Service.Groups[i]? = some g) :
    (∀ out err, getRoutes E api = some (out, err) →
      ∃ og : group, out[i]? = some og ∧
        (Group.GetAnnotation g (str "middleware") = [] → og.Middlewares = []) ∧
        (Group.GetAnnotation g (str "middleware") ≠ [] →
          og.Middlewares = stringsSplit (Group.GetAnnotation g (str "middleware")) (str ",") ∧
          og.Middlewares.length = (Group.GetAnnotation g (str "middleware")).count 44 + 1 ∧
          (∀ e ∈ og.Middlewares, 44 ∉ e) ∧
          stringsJoin og.Middlewares (str ",") = Group.GetAnnotation g (str "middleware"))) ∧
    (Sliceable E api → ∃ out, getRoutes E api = some (out, none)) := by
  refine ⟨?_, getRoutes_total E api⟩
  intro out err h
  obtain ⟨og, rs, hog, hgo⟩ := getRoutes_group_at E api out err h i g hg
  refine ⟨og, hog, ?_, ?_⟩
  · intro hm
    rw [hgo, groupOptions_Middlewares, if_neg (not_not.mpr hm)]
    rfl
  · intro hm
    have hM : og.Middlewares
        = stringsSplit (Group.GetAnnotation g (str "middleware")) (str ",") := by
      rw [hgo, groupOptions_Middlewares, if_pos hm]
      simp [group.zero]
    refine ⟨hM, ?_, ?_, ?_⟩
    · rw [hM, str_comma]; exact splitScan_byte_length 44 _ []
    · rw [hM, str_comma]; exact splitScan_byte_not_mem 44 _ [] (by simp)
    · rw [hM, str_comma]
      have := splitScan_byte_join 44 (Group.GetAnnotation g (str "middleware")) []
      simpa [stringsSplit] using this

/-- Witness of C9: the annotation `auth, log` gives the two entries `auth` and
` log`, the second with its leading blank. -/
theorem getRoutes_middlewares_witness :
    (∀ out err, getRoutes Env.sample authApi = some (out, err) →
      ∃ og : group, out[0]? = some og ∧ og.Middlewares = [str "auth", str " log"]) ∧
    (∃ out, getRoutes Env.sample authApi = some (out, none)) := by
  have h := getRoutes_middlewares Env.sample authApi 0 authGroup (by decide)
  refine ⟨?_, h.2 (by decide)⟩
  intro out err ho
  obtain ⟨og, hog, _, hsplit⟩ := h.1 out err ho
  exact ⟨og, hog, (hsplit (by decide)).1⟩

/-- C10: when the grouping-folder key is none of `jwt`, `signature`,
`middleware` and the handler-name helper does not read these annotations, two
descriptions that are identical except for the values of these annotations on
their routes get the same result of `getRoutes` and the same text of
`genRouteImports`. -/
theorem route_auth_not_read (K K' : KeyOrder) (E : Env) (parentPkg : GoString) (a b : ApiSpec)
    (hkey : E.groupProperty ∉ authKeys)
    (hname : ∀ r r', SameButRouteAuth r r' → E.getHandlerName r = E.getHandlerName r')
    (h : SameButRouteAuthApi a b) :
    getRoutes E a = getRoutes E b ∧
    genRouteImports K E parentPkg a = genRouteImports K' E parentPkg b := by
  constructor
  · unfold getRoutes
    rw [groupsLoop_congr E hkey hname h]
  · have hset : importSet E parentPkg a = importSet E parentPkg b := by
      unfold importSet
      exact groupsFold_congr E parentPkg hkey h _
    unfold genRouteImports sortedImports
    rw [hset, sortedImports_of_perm K K' _ _ (List.Perm.refl _)]

/-- Witness of C10: giving route `getUser` a `jwt`, a `signature` and a
`middleware` annotation of its own changes neither the group list, where
`JwtEnabled` stays false, nor the import block. -/
theorem route_auth_not_read_witness :
    SameButRouteAuthApi sampleApi taggedApi ∧
    getRoutes Env.sample sampleApi = getRoutes Env.sample taggedApi ∧
    genRouteImports KeyOrder.insertion Env.sample (str "root") sampleApi =
      genRouteImports KeyOrder.reversed Env.sample (str "root") taggedApi ∧
    (getRoutes Env.sample taggedApi).map (fun p => p.1.map fun og => og.JwtEnabled) =
      some [false] := by
  have hroute : SameButRouteAuth sampleRoute taggedRoute := by
    refine ⟨rfl, rfl, rfl, ?_⟩
    intro key hk
    simp only [authKeys, List.mem_cons, List.mem_singleton, not_or, List.not_mem_nil,
      or_false] at hk
    obtain ⟨h1, h2, h3⟩ := hk
    simp [Route.GetAnnotation, getAnnotation, sampleRoute, taggedRoute, mkRoute, List.find?,
      Ne.symm h1, Ne.symm h2, Ne.symm h3]
  have hapi : SameButRouteAuthApi sampleApi taggedApi :=
    List.Forall₂.cons ⟨rfl, List.Forall₂.cons hroute List.Forall₂.nil⟩ List.Forall₂.nil
  have h := route_auth_not_read KeyOrder.insertion KeyOrder.reversed Env.sample (str "root")
    sampleApi taggedApi (by decide) (fun r r' hrr => hrr.2.2.1) hapi
  exact ⟨hapi, h.1, h.2, by decide⟩

/-! ## Run-time failure of `getRoutes` -/

theorem routesLoop_none (E : Env) (g : Group) (r : Route) (hr : routeHandler E g r = none)
    (rs : List Route) (hmem : r ∈ rs) : ∀ acc, routesLoop E g rs acc = none := by
  induction rs with
  | nil => simp at hmem
  | cons a as ih =>
    intro acc
    unfold routesLoop
    rcases List.mem_cons.mp hmem with h | h
    · subst h; simp [hr]
    · cases routeHandler E g a with
      | none => rfl
      | some handler => exact ih h _

theorem groupsLoop_none (E : Env) (g : Group) (hg : ∀ acc, routesLoop E g g.Routes acc = none)
    (gs : List Group) (hmem : g ∈ gs) : ∀ acc, groupsLoop E gs acc = none := by
  induction gs with
  | nil => simp at hmem
  | cons a as ih =>
    intro acc
    unfold groupsLoop
    rcases List.mem_cons.mp hmem with h | h
    · subst h; simp [hg]
    · cases routesLoop E a a.Routes group.zero.Routes with
      | none => rfl
      | some rs => exact ih h _

/-- C11: for a service whose routes all have a non-empty handler name,
`getRoutes` returns a group list with a nil error, and for every route both
slices `handler[:1]` and `handler[1:]` are in range, so the handler expression
of the route has a value. -/
theorem getRoutes_never_fails (E : Env) (api : ApiSpec)
    (hne : ∀ g ∈ api.Service.Groups, ∀ r ∈ g.Routes, E.getHandlerName r ≠ []) :
    (∃ out, getRoutes E api = some (out, none)) ∧
    ∀ g ∈ api.Service.Groups, ∀ r ∈ g.Routes,
      sliceTo (E.getHandlerName r) 1 = some ((E.getHandlerName r).take 1) ∧
      sliceFrom (E.getHandlerName r) 1 = some ((E.getHandlerName r).drop 1) ∧
      ∃ handler, routeHandler E g r = some handler := by
  refine ⟨getRoutes_total E api (fun g hg r hr _ => hne g hg r hr), ?_⟩
  intro g hg r hr
  have h := hne g hg r hr
  refine ⟨?_, ?_, routeHandler_sliceable E g r (fun _ => h)⟩
  · cases hn : E.getHandlerName r with
    | nil => exact absurd hn h
    | cons c rest => simp [sliceTo]
  · cases hn : E.getHandlerName r with
    | nil => exact absurd hn h
    | cons c rest => simp [sliceFrom]

/-- Witness of C11: the three routes of `orderApi` have non-empty names. -/
theorem getRoutes_never_fails_witness :
    (∃ out, getRoutes Env.sample orderApi = some (out, none)) ∧
    ∀ g ∈ orderApi.Service.Groups, ∀ r ∈ g.Routes,
      sliceTo (Env.sample.getHandlerName r) 1 = some ((Env.sample.getHandlerName r).take 1) ∧
      sliceFrom (Env.sample.getHandlerName r) 1 = some ((Env.sample.getHandlerName r).drop 1) ∧
      ∃ handler, routeHandler Env.sample g r = some handler :=
  getRoutes_never_fails Env.sample orderApi (by decide)

theorem stringsToUpper_singleton_ne_nil (c : Nat) : stringsToUpper [c] ≠ [] := by
  unfold stringsToUpper
  by_cases h : c < 128 <;> simp [h]

theorem qualified_ne_bare (p : GoString) (c : Nat) (rest : GoString) :
    p ++ (stringsToUpper [c] ++ rest) ≠ p := by
  intro h
  have hl := congrArg List.length h
  have hne := stringsToUpper_singleton_ne_nil c
  have hpos : 0 < (stringsToUpper [c]).length := List.length_pos.mpr hne
  simp only [List.length_append] at hl
  omega

/-- Whenever `getRoutes` returns, a route with a non-empty resolved folder has a
non-empty sliced name and the qualified handler built from it. -/
theorem getRoutes_qualified_at (E : Env) (api : ApiSpec) (out : List group)
    (err : Option GoError) (h : getRoutes E api = some (out, err)) (i j : Nat) (g : Group)
    (r : Route) (hg : api.Service.Groups[i]? = some g) (hr : g.Routes[j]? = some r)
    (hf : resolvedFolder E g r ≠ []) :
    ∃ (og : group) (o : route) (c : Nat) (rest : GoString),
      E.getHandlerName r = c :: rest ∧ out[i]? = some og ∧ og.Routes[j]? = some o ∧
      o.Handler = toPrefix (resolvedFolder E g r) ++ str "." ++ (stringsToUpper [c] ++ rest) := by
  obtain ⟨og, o, hog, ho, hro, _, _⟩ := getRoutes_at E api out err h i j g r hg hr
  rw [routeHandler_eq, if_pos hf] at hro
  cases hn : E.getHandlerName r with
  | nil => rw [hn, qualifiedHandler_nil] at hro; cases hro
  | cons c rest =>
    rw [hn, qualifiedHandler_cons] at hro
    exact ⟨og, o, c, rest, rfl, hog, ho, by rw [← Option.some.inj hro]; simp⟩

/-- A helper that returns the empty name for a route with a resolved folder makes
`getRoutes` stop on the slice. -/
theorem getRoutes_none_of_empty_name (E : Env) (api : ApiSpec) (g : Group) (r : Route)
    (hg : g ∈ api.Service.Groups) (hr : r ∈ g.Routes)
    (hname : E.getHandlerName r = []) (hf : resolvedFolder E g r ≠ []) :
    getRoutes E api = none := by
  have h1 : routeHandler E g r = none := by
    rw [routeHandler_eq, if_pos hf, hname, qualifiedHandler_nil]
  unfold getRoutes
  rw [groupsLoop_none E g (routesLoop_none E g r h1 g.Routes hr) _ hg]

theorem resolvedFolder_emptyName (E : Env) (hkey : E.groupProperty = str "group") :
    resolvedFolder E emptyNameGroup emptyNameRoute = str "user" := by
  unfold resolvedFolder
  rw [hkey]
  decide

/-- Counterexample to C16 as stated: the description holds one route whose
handler name is the empty string, in a group with folder `user`; whatever the
handler-name helper and the other constants of the package are (the folder key
being `group`), `getRoutes` does not complete with the handler `user.` for
it. -/
theorem getRoutes_empty_name_counterexample :
    emptyNameApi.Service.Groups[0]? = some emptyNameGroup ∧
    emptyNameGroup.Routes[0]? = some emptyNameRoute ∧
    emptyNameRoute.Handler = str "" ∧
    ¬ ∃ (E : Env) (out : List group), E.groupProperty = str "group" ∧
        getRoutes E emptyNameApi = some (out, none) ∧
        ∃ og o, out[0]? = some og ∧ og.Routes[0]? = some o ∧
          o.Handler = toPrefix (str "user") ++ str "." := by
  refine ⟨by decide, by decide, by decide, ?_⟩
  rintro ⟨E, out, hkey, hout, og, o, hog, ho, hh⟩
  have hrf := resolvedFolder_emptyName E hkey
  obtain ⟨og', o', c, rest, _, hog', ho', hh'⟩ :=
    getRoutes_qualified_at E emptyNameApi out none hout 0 0 emptyNameGroup emptyNameRoute
      (by decide) (by decide) (by rw [hrf]; decide)
  rw [hog] at hog'
  cases hog'
  rw [ho] at ho'
  cases ho'
  rw [hrf, hh, List.append_assoc] at hh'
  exact qualified_ne_bare _ c rest (by rw [List.append_assoc]; exact hh'.symm)

/-- C16, amended: for a route `r` at position `j` of the group `g` at position
`i` whose resolved folder `f` is non-empty, whatever its handler name: every
result of `getRoutes` comes with a non-empty sliced name `c :: rest`, the value
of `getHandlerName(r)`, and has at position `i`, `j` the handler
`toPrefix f ++ "." ++ strings.ToUpper(c) ++ rest`, which is never
`toPrefix f ++ "."` alone; a helper that returned the empty name would put
`handler[:1]` out of range and stop the run; and `getRoutes` does return, with a
nil error, whenever the names it slices are non-empty. -/
theorem getRoutes_never_bare_prefix (E : Env) (api : ApiSpec) (i j : Nat) (g : Group)
    (r : Route) (hg : api.Service.Groups[i]? = some g) (hr : g.Routes[j]? = some r)
    (hf : resolvedFolder E g r ≠ []) :
    (∀ out err, getRoutes E api = some (out, err) →
      ∃ (og : group) (o : route) (c : Nat) (rest : GoString),
        E.getHandlerName r = c :: rest ∧ out[i]? = some og ∧ og.Routes[j]? = some o ∧
        o.Handler =
          toPrefix (resolvedFolder E g r) ++ str "." ++ (stringsToUpper [c] ++ rest) ∧
        o.Handler ≠ toPrefix (resolvedFolder E g r) ++ str ".") ∧
    (E.getHandlerName r = [] → getRoutes E api = none) ∧
    (Sliceable E api → ∃ out, getRoutes E api = some (out, none)) := by
  refine ⟨?_, ?_, getRoutes_total E api⟩
  · intro out err h
    obtain ⟨og, o, c, rest, hname, hog, ho, hh⟩ :=
      getRoutes_qualified_at E api out err h i j g r hg hr hf
    exact ⟨og, o, c, rest, hname, hog, ho, hh, by rw [hh]; exact qualified_ne_bare _ c rest⟩
  · intro hname
    exact getRoutes_none_of_empty_name E api g r (List.getElem?_mem hg) (List.getElem?_mem hr)
      hname hf

/-- Witness of C16, amended: with the helper that appends `Handler`, the route
with the empty handler name in the group with folder `user` gets the handler
`user.Handler`, not `user.`. -/
theorem getRoutes_never_bare_prefix_witness :
    (∀ out err, getRoutes Env.suffixing emptyNameApi = some (out, err) →
      ∃ (og : group) (o : route), out[0]? = some og ∧ og.Routes[0]? = some o ∧
        o.Handler = str "user.Handler" ∧ o.Handler ≠ str "user.") ∧
    (∃ out, getRoutes Env.suffixing emptyNameApi = some (out, none)) := by
  have h := getRoutes_never_bare_prefix Env.suffixing emptyNameApi 0 0 emptyNameGroup
    emptyNameRoute (by decide) (by decide) (by decide)
  refine ⟨?_, h.2.2 (by decide)⟩
  intro out err ho
  obtain ⟨og, o, c, rest, hname, hog, hor, hh, hne⟩ := h.1 out err ho
  have hcr : (72 :: str "andler" : GoString) = c :: rest := hname
  injection hcr with hc hrest
  subst hc
  subst hrest
  exact ⟨og, o, hog, hor, hh, hne⟩

/-! ## Aliases: `toPrefix`, handlers and import lines -/

/-- C17: `toPrefix folder` contains no slash (byte 47), is `folder` with every
slash deleted and the other bytes kept in order, is `folder` itself when
`folder` has no slash, and applying `toPrefix` twice is the same as once. -/
theorem toPrefix_strips_slashes (folder : GoString) :
    47 ∉ toPrefix folder ∧
    toPrefix folder = folder.filter (fun c => decide (c ≠ 47)) ∧
    (47 ∉ folder → toPrefix folder = folder) ∧
    toPrefix (toPrefix folder) = toPrefix folder := by
  refine ⟨?_, toPrefix_eq_filter folder, ?_, ?_⟩
  · rw [toPrefix_eq_filter]
    intro h
    simpa using (List.mem_filter.mp h).2
  · intro h
    rw [toPrefix_eq_filter, List.filter_eq_self]
    intro a ha
    simp only [ne_eq, decide_not, Bool.not_eq_eq_eq_not, Bool.not_true, decide_eq_false_iff_not]
    intro e
    exact h (e ▸ ha)
  · rw [toPrefix_eq_filter, toPrefix_eq_filter, List.filter_filter]
    simp

theorem getRoutes_route_of_mem (E : Env) (api : ApiSpec) (out : List group)
    (err : Option GoError) (h : getRoutes E api = some (out, err)) (g : Group) (r : Route)
    (hg : g ∈ api.Service.Groups) (hr : r ∈ g.Routes) :
    ∃ (i j : Nat) (og : group) (o : route),
      api.Service.Groups[i]? = some g ∧ g.Routes[j]? = some r ∧
      out[i]? = some og ∧ og.Routes[j]? = some o ∧ RouteOut E g r o := by
  obtain ⟨i, hi⟩ := List.getElem?_of_mem hg
  obtain ⟨j, hj⟩ := List.getElem?_of_mem hr
  obtain ⟨og, o, hog, ho, hro⟩ := getRoutes_at E api out err h i j g r hi hj
  exact ⟨i, j, og, o, hi, hj, hog, ho, hro⟩

theorem routeHandler_qualified_form (E : Env) (g : Group) (r : Route) (handler : GoString)
    (hf : resolvedFolder E g r ≠ []) (h : routeHandler E g r = some handler) :
    ∃ name, handler = toPrefix (resolvedFolder E g r) ++ str "." ++ name := by
  rw [routeHandler_eq, if_pos hf] at h
  cases hn : E.getHandlerName r with
  | nil => rw [hn, qualifiedHandler_nil] at h; cases h
  | cons c rest =>
    rw [hn, qualifiedHandler_cons] at h
    exact ⟨stringsToUpper [c] ++ rest, by rw [← Option.some.inj h]; simp⟩

/-- C18: for a service whose routes all have a non-empty handler name and every
root package, `getRoutes` returns a list in which every route with a non-empty
resolved folder `f` has a handler of the form `toPrefix f ++ "." ++ name`, and
the line with alias `toPrefix f` and path `<root>/<handlerDir>/f` is among the
lines of `genRouteImports`; conversely every line other than the context line
is the line of the resolved folder of some route, whose handler has that alias
as its prefix. -/
theorem handlers_imports_agree (K : KeyOrder) (E : Env) (parentPkg : GoString) (api : ApiSpec)
    (hne : ∀ g ∈ api.Service.Groups, ∀ r ∈ g.Routes, E.getHandlerName r ≠ []) :
    ∃ out, getRoutes E api = some (out, none) ∧
      (∀ (i j : Nat) (g : Group) (r : Route), api.Service.Groups[i]? = some g →
        g.Routes[j]? = some r → resolvedFolder E g r ≠ [] →
        ∃ (og : group) (o : route) (name : GoString),
          out[i]? = some og ∧ og.Routes[j]? = some o ∧
          o.Handler = toPrefix (resolvedFolder E g r) ++ str "." ++ name ∧
          toPrefix (resolvedFolder E g r) ++ str " \"" ++
              (parentPkg ++ str "/" ++ E.handlerDir ++ str "/" ++ resolvedFolder E g r) ++
              str "\"" ∈ sortedImports K E parentPkg api) ∧
      (∀ line ∈ sortedImports K E parentPkg api,
        line ≠ str "\"" ++ (parentPkg ++ str "/" ++ E.contextDir) ++ str "\"" →
        ∃ (i j : Nat) (g : Group) (r : Route) (og : group) (o : route) (name : GoString),
          api.Service.Groups[i]? = some g ∧ g.Routes[j]? = some r ∧
          resolvedFolder E g r ≠ [] ∧
          line = toPrefix (resolvedFolder E g r) ++ str " \"" ++
              (parentPkg ++ str "/" ++ E.handlerDir ++ str "/" ++ resolvedFolder E g r) ++
              str "\"" ∧
          out[i]? = some og ∧ og.Routes[j]? = some o ∧
          o.Handler = toPrefix (resolvedFolder E g r) ++ str "." ++ name) := by
  obtain ⟨out, hout⟩ := getRoutes_total E api (fun g hg r hr _ => hne g hg r hr)
  have hp := sortedImports_perm K E parentPkg api
  refine ⟨out, hout, ?_, ?_⟩
  · intro i j g r hg hr hf
    obtain ⟨og, o, hog, ho, hro, _, _⟩ := getRoutes_at E api out none hout i j g r hg hr
    obtain ⟨name, hname⟩ := routeHandler_qualified_form E g r o.Handler hf hro
    refine ⟨og, o, name, hog, ho, hname, ?_⟩
    rw [hp.mem_iff, mem_importSet, ← handlerImport_words]
    exact Or.inr ⟨g, List.getElem?_mem hg, r, List.getElem?_mem hr, hf, rfl⟩
  · intro line hline hctx
    rw [hp.mem_iff, mem_importSet, contextImport_words] at hline
    rcases hline with h | ⟨g, hg, r, hr, hf, hl⟩
    · exact absurd h hctx
    · obtain ⟨i, j, og, o, hi, hj, hog, ho, hro, _, _⟩ :=
        getRoutes_route_of_mem E api out none hout g r hg hr
      obtain ⟨name, hname⟩ := routeHandler_qualified_form E g r o.Handler hf hro
      exact ⟨i, j, g, r, og, o, name, hi, hj, hf, by rw [hl, handlerImport_words], hog, ho,
        hname⟩

/-- Witness of C18: route `d` of `zetaAlphaApi` takes folder `orders` from its
group; its handler starts with `orders.` and the `orders` line is imported. -/
theorem handlers_imports_agree_witness :
    ∃ out, getRoutes Env.sample zetaAlphaApi = some (out, none) ∧
      ∃ (og : group) (o : route) (name : GoString),
        out[1]? = some og ∧ og.Routes[0]? = some o ∧
        o.Handler = str "orders." ++ name ∧
        str "orders \"root/handler/orders\"" ∈
          sortedImports KeyOrder.insertion Env.sample (str "root") zetaAlphaApi := by
  obtain ⟨out, hout, h1, _⟩ :=
    handlers_imports_agree KeyOrder.insertion Env.sample (str "root") zetaAlphaApi (by decide)
  exact ⟨out, hout, h1 1 0
    { Annotations := [(str "group", str "orders")],
      Routes := [mkRoute "d" "", mkRoute "e" "orders"] } (mkRoute "d" "")
    (by decide) (by decide) (by decide)⟩

theorem stringLess_append_left (p a b : GoString) :
    stringLess (p ++ a) (p ++ b) = stringLess a b := by
  induction p with
  | nil => rfl
  | cons x xs ih => simp [stringLess, ih]

theorem resolvedFolder_alias (E : Env) (hkey : E.groupProperty = str "group") :
    resolvedFolder E aliasGroup (mkRoute "x" "a/b") = str "a/b" ∧
    resolvedFolder E aliasGroup (mkRoute "y" "ab") = str "ab" := by
  unfold resolvedFolder
  rw [hkey]
  decide

theorem resolvedFolders_alias (E : Env) (hkey : E.groupProperty = str "group") :
    resolvedFolders E aliasApi = [str "a/b", str "ab"] := by
  unfold resolvedFolders resolvedFolder
  rw [hkey]
  decide

theorem sortedImports_alias (K : KeyOrder) (E : Env) (parentPkg : GoString)
    (hkey : E.groupProperty = str "group") :
    sortedImports K E parentPkg aliasApi =
      [contextImport E parentPkg, handlerImport E parentPkg (str "a/b"),
       handlerImport E parentPkg (str "ab")] := by
  have hperm : (KeysStr K (importSet E parentPkg aliasApi)).Perm
      [contextImport E parentPkg, handlerImport E parentPkg (str "a/b"),
       handlerImport E parentPkg (str "ab")] := by
    refine (K.perm _).trans ?_
    have h := importSet_perm_lines E parentPkg aliasApi
    rw [resolvedFolders_alias E hkey] at h
    have hd : ([str "a/b", str "ab"] : List GoString).dedup = [str "a/b", str "ab"] := by decide
    rw [hd] at h
    exact h
  unfold sortedImports
  rw [sortStrings_eq_of_perm _ _ hperm]
  have h1 : stringLess (handlerImport E parentPkg (str "ab"))
      (handlerImport E parentPkg (str "a/b")) = false := by
    rw [handlerImport_eq, handlerImport_eq]
    have ha : toPrefix (str "a/b") = [97, 98] := by decide
    have hb : toPrefix (str "ab") = [97, 98] := by decide
    have hc : str "a/b" = [97, 47, 98] := by decide
    have hd : str "ab" = [97, 98] := by decide
    rw [ha, hb, hc, hd]
    have e1 : ([97, 98] : GoString) ++ 32 :: 34 :: (parentPkg ++ 47 :: (E.handlerDir ++
        47 :: ([97, 98] ++ [34]))) =
        ([97, 98, 32, 34] ++ parentPkg ++ 47 :: E.handlerDir ++ [47, 97]) ++ [98, 34] := by
      simp
    have e2 : ([97, 98] : GoString) ++ 32 :: 34 :: (parentPkg ++ 47 :: (E.handlerDir ++
        47 :: ([97, 47, 98] ++ [34]))) =
        ([97, 98, 32, 34] ++ parentPkg ++ 47 :: E.handlerDir ++ [47, 97]) ++ [47, 98, 34] := by
      simp
    rw [e1, e2, stringLess_append_left]
    decide
  have h2 : stringLess (handlerImport E parentPkg (str "a/b")) (contextImport E parentPkg)
      = false := by
    rw [handlerImport_eq, contextImport_eq]
    have ha : toPrefix (str "a/b") = [97, 98] := by decide
    rw [ha]
    simp [stringLess]
  simp [sortStrings, insertSorted, h1, h2]

/-- C19: for the service with a route in folder `a/b` and a route in folder `ab`,
whatever the root package, the directories, the helper and the key order of the
set (the folder key being `group`): `genRouteImports` returns the context line,
then the line with alias `ab` for `<root>/<handlerDir>/a/b`, then the line with
alias `ab` for `<root>/<handlerDir>/ab`, then the dependency section; the two
lines are distinct and `toPrefix` gives both folders the alias `ab`; every
result of `getRoutes` gives the two routes handlers that start with `ab.`; and
`getRoutes` does return whenever the names it slices are non-empty. -/
theorem alias_not_unique (K : KeyOrder) (E : Env) (parentPkg : GoString)
    (hkey : E.groupProperty = str "group") :
    genRouteImports K E parentPkg aliasApi =
      stringsJoin
        [str "\"" ++ (parentPkg ++ str "/" ++ E.contextDir) ++ str "\"",
         str "ab \"" ++ (parentPkg ++ str "/" ++ E.handlerDir ++ str "/" ++ str "a/b") ++
           str "\"",
         str "ab \"" ++ (parentPkg ++ str "/" ++ E.handlerDir ++ str "/" ++ str "ab") ++
           str "\""]
        (str "\n\t") ++ str "\n\n\t" ++
        (str "\"" ++ E.ProjectOpenSourceURL ++ str "/rest" ++ str "\"") ∧
    str "ab \"" ++ (parentPkg ++ str "/" ++ E.handlerDir ++ str "/" ++ str "a/b") ++ str "\"" ≠
      str "ab \"" ++ (parentPkg ++ str "/" ++ E.handlerDir ++ str "/" ++ str "ab") ++ str "\"" ∧
    toPrefix (str "a/b") = str "ab" ∧ toPrefix (str "ab") = str "ab" ∧
    (∀ out err, getRoutes E aliasApi = some (out, err) →
      ∃ (og : group) (o₁ o₂ : route) (n₁ n₂ : GoString),
        out[0]? = some og ∧ og.Routes[0]? = some o₁ ∧ og.Routes[1]? = some o₂ ∧
        o₁.Handler = str "ab." ++ n₁ ∧ o₂.Handler = str "ab." ++ n₂) ∧
    (Sliceable E aliasApi → ∃ out, getRoutes E aliasApi = some (out, none)) := by
  have hw1 : handlerImport E parentPkg (str "a/b") =
      str "ab \"" ++ (parentPkg ++ str "/" ++ E.handlerDir ++ str "/" ++ str "a/b") ++
        str "\"" := by
    rw [handlerImport_words]
    have : toPrefix (str "a/b") ++ str " \"" = str "ab \"" := by decide
    rw [this]
  have hw2 : handlerImport E parentPkg (str "ab") =
      str "ab \"" ++ (parentPkg ++ str "/" ++ E.handlerDir ++ str "/" ++ str "ab") ++
        str "\"" := by
    rw [handlerImport_words]
    have : toPrefix (str "ab") ++ str " \"" = str "ab \"" := by decide
    rw [this]
  refine ⟨?_, ?_, by decide, by decide, ?_, getRoutes_total E aliasApi⟩
  · unfold genRouteImports
    rw [sortedImports_alias K E parentPkg hkey, depSection_words, contextImport_words,
      hw1, hw2]
  · rw [← hw1, ← hw2]
    intro h
    exact absurd (handlerImport_injective E parentPkg _ _ h) (by decide)
  · intro out err h
    obtain ⟨hf1, hf2⟩ := resolvedFolder_alias E hkey
    obtain ⟨og, o₁, c₁, r₁, _, hog, ho₁, hh₁⟩ :=
      getRoutes_qualified_at E aliasApi out err h 0 0 aliasGroup (mkRoute "x" "a/b")
        (by decide) (by decide) (by rw [hf1]; decide)
    obtain ⟨og', o₂, c₂, r₂, _, hog', ho₂, hh₂⟩ :=
      getRoutes_qualified_at E aliasApi out err h 0 1 aliasGroup (mkRoute "y" "ab")
        (by decide) (by decide) (by rw [hf2]; decide)
    rw [hog] at hog'
    cases hog'
    have p1 : toPrefix (str "a/b") ++ str "." = str "ab." := by decide
    have p2 : toPrefix (str "ab") ++ str "." = str "ab." := by decide
    rw [hf1, p1] at hh₁
    rw [hf2, p2] at hh₂
    exact ⟨og, o₁, o₂, _, _, hog, ho₁, ho₂, hh₁, hh₂⟩

/-- Witness of C19: with the helper that appends `Handler` and the directories
`internal/svc` and `internal/handler`, root package `root`. -/
theorem alias_not_unique_witness :
    genRouteImports KeyOrder.reversed Env.suffixing (str "root") aliasApi =
      str ("\"root/internal/svc\"\n\tab \"root/internal/handler/a/b\"" ++
        "\n\tab \"root/internal/handler/ab\"\n\n\t\"github.com/tal-tech/go-zero/rest\"") ∧
    (getRoutes Env.suffixing aliasApi).map
        (fun p => p.1.map fun og => og.Routes.map fun o => o.Handler) =
      some [[str "ab.XHandler", str "ab.YHandler"]] := by
  have h := alias_not_unique KeyOrder.reversed Env.suffixing (str "root") (by decide)
  exact ⟨h.1, by decide⟩

/-! ## `genRoutes`: errors of the naming formatter -/

theorem getRoutes_err_none (E : Env) (api : ApiSpec) (out : List group) (err : Option GoError)
    (h : getRoutes E api = some (out, err)) : err = none :=
  (getRoutes_some E api out err h).1

/-- C12: when the naming formatter returns the error `e` for the configured
format, every result of `genRoutes` is the file system state it started from
together with that same error `e`: the old file is not removed and nothing is
written; and `genRoutes` does return this result whenever `getRoutes` returns,
that is whenever the names it slices are non-empty. -/
theorem genRoutes_naming_error {FS : Type} (W : World FS) (K : KeyOrder) (E : Env)
    (dir rootPkg : GoString) (cfg : Config) (api : ApiSpec) (fs : FS)
    (name : GoString) (e : GoError)
    (hfmt : W.FileNamingFormat cfg.NamingFormat routesFilename = (name, some e)) :
    (∀ res, genRoutes W K E dir rootPkg cfg api fs = some res → res = (fs, some e)) ∧
    (Sliceable E api → genRoutes W K E dir rootPkg cfg api fs = some (fs, some e)) := by
  have key : ∀ out err, getRoutes E api = some (out, err) →
      genRoutes W K E dir rootPkg cfg api fs = some (fs, some e) := by
    intro out err h
    have herr := getRoutes_err_none E api out err h
    subst herr
    unfold genRoutes
    simp only [h, hfmt]
  constructor
  · intro res hres
    cases hg : getRoutes E api with
    | none => simp [genRoutes, hg] at hres
    | some p =>
      obtain ⟨out, err⟩ := p
      rw [key out err hg] at hres
      exact (Option.some.inj hres).symm
  · intro hs
    obtain ⟨out, hout⟩ := getRoutes_total E api hs
    exact key out none hout

/-- Witness of C12: in the recording world the format `bad` gives the formatter's
error and an empty record of file operations, while the format `gozero` gives
one removal followed by one write. -/
theorem genRoutes_naming_error_witness :
    genRoutes World.recording KeyOrder.insertion Env.sample (str "out") (str "root")
        { NamingFormat := str "bad" } authApi [] = some ([], some (str "unknown format")) ∧
    genRoutes World.recording KeyOrder.insertion Env.sample (str "out") (str "root")
        { NamingFormat := str "gozero" } authApi [] =
      some ([FileOp.removed (str "out/handler/routes.go"),
             FileOp.written (str "out") (str "handler") (str "routes.go")], none) := by
  have h := genRoutes_naming_error World.recording KeyOrder.insertion Env.sample (str "out")
    (str "root") { NamingFormat := str "bad" } authApi [] [] (str "unknown format") (by decide)
  exact ⟨h.2 (by decide), by decide⟩

/-! ## The built-in template -/

/-- Parsing the built-in template fails at its second action,
`range $group :=Groups`, where `Groups` stands as a function name. -/
theorem routesTemplate_parse :
    parseItems [[]] (lexItems false [] routesTemplate) =
      some (TemplateError.functionNotDefined (str "Groups")) := by
  decide

/-- Rendering the built-in template fails for every data record. -/
theorem renderTemplate_routesTemplate (data : routesData) :
    renderTemplate routesTemplate data =
      Except.error (TemplateError.functionNotDefined (str "Groups")) := by
  unfold renderTemplate parseTemplate
  rw [routesTemplate_parse]

/-- C13, what the code does: the actions of the built-in template are the ten
listed, the one of the import section being `.importPackages` with a lower-case
first letter; no field of the data record has that name, so its evaluation
fails; rendering the built-in template fails for every data record; whereas
the same section of imports with the field written `.ImportPackages` renders
the block of `genRouteImports` verbatim. -/
theorem routesTemplate_import_field :
    actionsOf (lexItems false [] routesTemplate) =
      [str ".importPackages", str "range $group :=Groups", str "range $route := $group.Routes",
       str "end", str "if .JwtEnabled", str "group.AuthName", str "end",
       str "if .SignatureEnabled ", str "end", str "end"] ∧
    (∀ data : routesData, evalField data (str "importPackages") =
      Except.error (TemplateError.cantEvaluateField (str "importPackages"))) ∧
    (∀ data : routesData, renderTemplate routesTemplate data =
      Except.error (TemplateError.functionNotDefined (str "Groups"))) ∧
    renderTemplate importSectionTemplate authData =
      Except.ok (str "import (\n\t\"net/http\"\n\n\t" ++
        genRouteImports KeyOrder.insertion Env.sample (str "root") authApi ++ str "\n)\n") := by
  refine ⟨by decide, ?_, renderTemplate_routesTemplate, by rfl⟩
  intro data
  have h1 : str "importPackages" ≠ str "ImportPackages" := by decide
  have h2 : str "importPackages" ≠ str "Groups" := by decide
  simp [evalField, h1, h2]

/-- C14, what the code does: after the call opener `engine.AddRoutes(` come the
action `range $group :=Groups`, the action `range $route := $group.Routes`, then
the text with the list opener `[]rest.Route` and one triple of the literal words
`.Method`, `.Path`, `.Handler`, and only then the `end` of the route loop: the
list opener is inside the loop over the routes; and rendering the built-in
template fails for every data record. -/
theorem routesTemplate_list_opener :
    ((lexItems false [] routesTemplate).drop 2).take 6 =
      [Item.text (str ("\n)\n\nfunc RegisterHandlers(engine *rest.Server, " ++
          "serverCtx *svc.ServiceContext) \x7b\n\tengine.AddRoutes(\n\t")),
       Item.action (str "range $group :=Groups"),
       Item.text (str "\n\t\t"),
       Item.action (str "range $route := $group.Routes"),
       Item.text (str ("\n\t\t[]rest.Route\x7b\n\t\t\t\x7b\n\t\t\t\tMethod: .Method,\n" ++
          "\t\t\t\tPath: .Path,\n\t\t\t\tHandler: .Handler,\n\t\t\t\x7d\n\t\t\x7d\n\t\t")),
       Item.action (str "end")] ∧
    (∀ data : routesData, renderTemplate routesTemplate data =
      Except.error (TemplateError.functionNotDefined (str "Groups"))) := by
  exact ⟨by decide, renderTemplate_routesTemplate⟩

/-! ## The method table -/

/-- Counterexample to C15 as stated: the token `DELETE` is not a key of `mapping`,
and neither is any of the six tokens written in upper case. -/
theorem mapping_upper_tokens_counterexample :
    mapIndex mapping (str "DELETE") = none ∧
    ∀ token ∈ upperTokens, mapIndex mapping token = none := by
  decide

/-- C15, amended: `mapping` has exactly six entries, its keys are the six tokens
in lower case, each once; each of them is a key, distinct tokens map to
distinct constant names, and the six values are the `http.Method` constants
listed. -/
theorem mapping_lower_tokens :
    mapping.length = 6 ∧
    mapping.map Prod.fst = lowerTokens ∧
    lowerTokens.Nodup ∧
    (∀ token ∈ lowerTokens, (mapIndex mapping token).isSome = true) ∧
    (∀ t₁ ∈ lowerTokens, ∀ t₂ ∈ lowerTokens, t₁ ≠ t₂ →
      mapIndex mapping t₁ ≠ mapIndex mapping t₂) ∧
    mapIndex mapping (str "delete") = some (str "http.MethodDelete") ∧
    mapIndex mapping (str "get") = some (str "http.MethodGet") ∧
    mapIndex mapping (str "head") = some (str "http.MethodHead") ∧
    mapIndex mapping (str "post") = some (str "http.MethodPost") ∧
    mapIndex mapping (str "put") = some (str "http.MethodPut") ∧
    mapIndex mapping (str "patch") = some (str "http.MethodPatch") := by
  decide

end Gogen
